import Mathlib

/-!
Verification of the bulk-export orchestration library (shopify-bulk-export).

The development shallowly embeds the core of the library: the host JSON codec used
by the result cache and the download step, the cache key digest, the GraphQL
query-variable substitution, the poll-status classifier, and the run / resume
orchestrators.  Remote interactions are modelled by scripted responses, and
each run produces, besides its outcome, an explicit trace of cache, filesystem
and network events, over which the lifecycle invariants are stated.
-/

namespace BulkExport

/-! ## JSON values and the host codec

The library stores cache entries with JSON.stringify and reads them back with
JSON.parse, and parses each downloaded JSONL line with JSON.parse.  Both are
host (JavaScript) functions; they are modelled here by an executable renderer
and parser over a JSON value type, with a proved round trip. -/

/-- A JSON value: the data interchanged with the host JSON codec.  Numbers are
modelled as integers (the records exercised by the library carry integral
identifiers; float formatting is outside the scope of the claims). -/
inductive Json where
  | null
  | bool (b : Bool)
  | num (n : Int)
  | str (s : String)
  | arr (elements : List Json)
  | obj (fields : List (String × Json))

/-- Decimal digit test for a character. -/
def isDigitCh (c : Char) : Bool := '0' ≤ c && c ≤ '9'

/-- The character for a decimal digit. -/
def digitOf (d : Nat) : Char := Char.ofNat (48 + d)

/-- Decimal digit characters of a natural number, most significant first.
Fuel-indexed so that it reduces definitionally; any fuel above the number
itself suffices. -/
def natCharsAux : Nat → Nat → List Char
  | 0, _ => []
  | fuel + 1, n =>
    if n < 10 then [digitOf n]
    else natCharsAux fuel (n / 10) ++ [digitOf (n % 10)]

/-- Decimal digit characters of a natural number. -/
def natChars (n : Nat) : List Char := natCharsAux (n + 1) n

/-- Characters of an integer: optional minus sign, then decimal digits. -/
def intChars : Int → List Char
  | .ofNat n => natChars n
  | .negSucc m => '-' :: natChars (m + 1)

/-- JSON string escaping of one character: quote and backslash are escaped,
all other characters pass through. -/
def escCh (c : Char) : List Char :=
  if c = '"' || c = '\\' then ['\\', c] else [c]

/-- JSON string escaping of a character sequence. -/
def escBody : List Char → List Char
  | [] => []
  | c :: cs => escCh c ++ escBody cs

mutual

/-- Characters of the JSON rendering of a value (the model of the host
JSON.stringify, which prints compactly with no whitespace). -/
def renderJson : Json → List Char
  | .null => ['n', 'u', 'l', 'l']
  | .bool b => if b then ['t', 'r', 'u', 'e'] else ['f', 'a', 'l', 's', 'e']
  | .num n => intChars n
  | .str s => '"' :: (escBody s.data ++ ['"'])
  | .arr [] => ['[', ']']
  | .arr (v :: vs) => '[' :: (renderJson v ++ renderMoreElems vs ++ [']'])
  | .obj [] => ['\x7b', '\x7d']
  | .obj (f :: fs) => '\x7b' :: (renderOneField f ++ renderMoreFields fs ++ ['\x7d'])

/-- Characters of one rendered object member. -/
def renderOneField : String × Json → List Char
  | (k, v) => '"' :: (escBody k.data ++ ['"', ':'] ++ renderJson v)

/-- Comma-led renderings of the remaining array elements. -/
def renderMoreElems : List Json → List Char
  | [] => []
  | v :: vs => ',' :: (renderJson v ++ renderMoreElems vs)

/-- Comma-led renderings of the remaining object members. -/
def renderMoreFields : List (String × Json) → List Char
  | [] => []
  | f :: fs => ',' :: (renderOneField f ++ renderMoreFields fs)

end

/-- The model of the host JSON.stringify. -/
def jsonStringify (v : Json) : String := ⟨renderJson v⟩

/-- Splits a leading run of decimal digits off a character sequence. -/
def takeDigits : List Char → List Char × List Char
  | c :: cs =>
    if isDigitCh c then
      let p := takeDigits cs
      (c :: p.1, p.2)
    else ([], c :: cs)
  | [] => ([], [])

/-- The natural number denoted by a run of decimal digit characters. -/
def digitsVal (ds : List Char) : Nat :=
  ds.foldl (fun a c => a * 10 + (c.toNat - 48)) 0

/-- Parses a nonempty run of decimal digits into a natural number. -/
def parseNatChars (cs : List Char) : Option (Nat × List Char) :=
  match takeDigits cs with
  | ([], _) => none
  | (ds, rest) => some (digitsVal ds, rest)

/-- Replacement for a backslash escape inside a JSON string. -/
def unescCh (c : Char) : Char :=
  if c = 'n' then '\n'
  else if c = 't' then '\t'
  else if c = 'r' then '\r'
  else if c = 'b' then '\x08'
  else if c = 'f' then '\x0c'
  else c

/-- Parses the body of a JSON string after the opening quote, up to and
including the closing quote. -/
def parseStrBody : List Char → Option (List Char × List Char)
  | [] => none
  | c :: rest =>
    if c = '"' then some ([], rest)
    else if c = '\\' then
      match rest with
      | [] => none
      | e :: rest2 =>
        match parseStrBody rest2 with
        | some (cs, r) => some (unescCh e :: cs, r)
        | none => none
    else
      match parseStrBody rest with
      | some (cs, r) => some (c :: cs, r)
      | none => none

mutual

/-- Parses one JSON value off the front of a character sequence (the model of
the host JSON.parse restricted to compact input).  The fuel argument bounds
recursion; any fuel above the input length suffices. -/
def parseJson : Nat → List Char → Option (Json × List Char)
  | 0, _ => none
  | _ + 1, [] => none
  | fuel + 1, c :: rest =>
    if c = 'n' then
      match rest with
      | 'u' :: 'l' :: 'l' :: r => some (.null, r)
      | _ => none
    else if c = 't' then
      match rest with
      | 'r' :: 'u' :: 'e' :: r => some (.bool true, r)
      | _ => none
    else if c = 'f' then
      match rest with
      | 'a' :: 'l' :: 's' :: 'e' :: r => some (.bool false, r)
      | _ => none
    else if c = '"' then
      match parseStrBody rest with
      | some (cs, r) => some (.str ⟨cs⟩, r)
      | none => none
    else if c = '[' then
      match rest with
      | [] => none
      | d :: r0 =>
        if d = ']' then some (.arr [], r0)
        else
          match parseJson fuel (d :: r0) with
          | some (v, r) =>
            match parseMoreElems fuel r with
            | some (vs, r2) => some (.arr (v :: vs), r2)
            | none => none
          | none => none
    else if c = '\x7b' then
      match rest with
      | [] => none
      | d :: r0 =>
        if d = '\x7d' then some (.obj [], r0)
        else
          match parseOneField fuel (d :: r0) with
          | some (f, r) =>
            match parseMoreFields fuel r with
            | some (fs, r2) => some (.obj (f :: fs), r2)
            | none => none
          | none => none
    else if c = '-' then
      match parseNatChars rest with
      | some (n, r) => some (.num (-(n : Int)), r)
      | none => none
    else if isDigitCh c then
      match parseNatChars (c :: rest) with
      | some (n, r) => some (.num (n : Int), r)
      | none => none
    else none
  termination_by structural fuel _ => fuel

/-- Parses one object member: a quoted key, a colon, and a value. -/
def parseOneField : Nat → List Char → Option ((String × Json) × List Char)
  | 0, _ => none
  | _ + 1, [] => none
  | fuel + 1, c :: rest =>
    if c = '"' then
      match parseStrBody rest with
      | some (cs, ':' :: r) =>
        match parseJson fuel r with
        | some (v, r2) => some ((⟨cs⟩, v), r2)
        | none => none
      | _ => none
    else none
  termination_by structural fuel _ => fuel

/-- Parses the remaining array elements: a closing bracket, or a comma and a
value before recurring. -/
def parseMoreElems : Nat → List Char → Option (List Json × List Char)
  | 0, _ => none
  | _ + 1, [] => none
  | fuel + 1, c :: rest =>
    if c = ']' then some ([], rest)
    else if c = ',' then
      match parseJson fuel rest with
      | some (v, r) =>
        match parseMoreElems fuel r with
        | some (vs, r2) => some (v :: vs, r2)
        | none => none
      | none => none
    else none
  termination_by structural fuel _ => fuel

/-- Parses the remaining object members. -/
def parseMoreFields : Nat → List Char → Option (List (String × Json) × List Char)
  | 0, _ => none
  | _ + 1, [] => none
  | fuel + 1, c :: rest =>
    if c = '\x7d' then some ([], rest)
    else if c = ',' then
      match parseOneField fuel rest with
      | some (f, r) =>
        match parseMoreFields fuel r with
        | some (fs, r2) => some (f :: fs, r2)
        | none => none
      | none => none
    else none
  termination_by structural fuel _ => fuel

end

/-- The model of the host JSON.parse: succeeds only when the whole input is
one JSON value. -/
def jsonParse (s : String) : Option Json :=
  match parseJson (s.data.length + 1) s.data with
  | some (v, []) => some v
  | _ => none

/-- Holds when the input does not begin with a decimal digit, so a preceding
rendered number cannot be extended by it. -/
def nonDigitStart : List Char → Bool
  | [] => true
  | c :: _ => !isDigitCh c


/-! ## GraphQL documents and the query-variable substitution

The model covers the node kinds the substitution (replaceQueryVariables in
src/steps/1.create-operation.ts) interacts with: operation definitions with
variable definitions, fields with arguments and nested selections, and the
value grammar with variable references, scalars, lists and input objects.  The
graphql visit function passes, for every node, the key under which the node
sits in its parent: an argument or object-field value sits under the key
`value`, while an element of a list value sits under its numeric index.  The
Variable visitor of the source returns early unless that key is exactly `value`. -/

/-- A GraphQL input value.  A replaced variable reference becomes a StringValue
node whose value field carries whatever was stored in the variables map, which
is why the payload of `strVal` is a `Json` value. -/
inductive GqlValue where
  | varRef (name : String)
  | strVal (value : Json)
  | intVal (n : Int)
  | boolVal (b : Bool)
  | listVal (values : List GqlValue)
  | objVal (fields : List (String × GqlValue))

/-- A field argument. -/
structure Argument where
  name : String
  value : GqlValue

/-- A selection: a field with arguments and a nested selection set. -/
inductive Selection where
  | field (name : String) (arguments : List Argument) (selections : List Selection)

/-- A variable definition attached to an operation. -/
structure VariableDefinition where
  varName : String
  typeName : String

/-- An operation definition. -/
structure OperationDefinition where
  opName : Option String
  variableDefinitions : List VariableDefinition
  selections : List Selection

/-- A parsed GraphQL document. -/
structure DocumentNode where
  definitions : List OperationDefinition

/-- The runtime variables map. -/
abbrev VarMap := List (String × Json)

mutual

/-- The Variable visitor of replaceQueryVariables on a value node.
`atValueKey` records whether this node sits under the key `value` in its
parent (true for argument and object-field values, false for list elements);
only then is a matching variable reference replaced by a StringValue carrying
the mapped value. -/
def visitValue (vars : VarMap) (atValueKey : Bool) : GqlValue → GqlValue
  | .varRef n =>
    if atValueKey then
      match vars.lookup n with
      | some j => .strVal j
      | none => .varRef n
    else .varRef n
  | .strVal j => .strVal j
  | .intVal n => .intVal n
  | .boolVal b => .boolVal b
  | .listVal vs => .listVal (visitValueList vars vs)
  | .objVal fs => .objVal (visitValueFields vars fs)

/-- Visits the elements of a list value; each sits under its numeric index. -/
def visitValueList (vars : VarMap) : List GqlValue → List GqlValue
  | [] => []
  | v :: vs => visitValue vars false v :: visitValueList vars vs

/-- Visits the fields of an input object; each value sits under `value`. -/
def visitValueFields (vars : VarMap) :
    List (String × GqlValue) → List (String × GqlValue)
  | [] => []
  | (k, v) :: fs => (k, visitValue vars true v) :: visitValueFields vars fs

end

mutual

/-- Visits one selection, rewriting argument values. -/
def visitSelection (vars : VarMap) : Selection → Selection
  | .field n args sels =>
    .field n (visitArgumentList vars args) (visitSelectionList vars sels)

/-- Visits a list of arguments; each argument value sits under `value`. -/
def visitArgumentList (vars : VarMap) : List Argument → List Argument
  | [] => []
  | a :: rest => ⟨a.name, visitValue vars true a.value⟩ :: visitArgumentList vars rest

/-- Visits a list of selections. -/
def visitSelectionList (vars : VarMap) : List Selection → List Selection
  | [] => []
  | s :: rest => visitSelection vars s :: visitSelectionList vars rest

end

/-- The edited abstract syntax tree produced by replaceQueryVariables when a
variables map is supplied: every VariableDefinition node is removed (the
visitor returns null for them), and variable references are rewritten by
`visitValue`. -/
def replaceVariablesDoc (vars : VarMap) (doc : DocumentNode) : DocumentNode :=
  ⟨doc.definitions.map fun d => ⟨d.opName, [], visitSelectionList vars d.selections⟩⟩

mutual

/-- Printed form of a value (the model of the graphql print function; the
claims use only that printing is a function of the tree). -/
def printValue : GqlValue → String
  | .varRef n => "$" ++ n
  | .strVal j => jsonStringify j
  | .intVal n => ⟨intChars n⟩
  | .boolVal true => "true"
  | .boolVal false => "false"
  | .listVal vs => "[" ++ printValueList vs ++ "]"
  | .objVal fs => "\x7b" ++ printValueFields fs ++ "\x7d"

/-- Printed forms of list elements, comma separated. -/
def printValueList : List GqlValue → String
  | [] => ""
  | [v] => printValue v
  | v :: vs => printValue v ++ ", " ++ printValueList vs

/-- Printed forms of object fields, comma separated. -/
def printValueFields : List (String × GqlValue) → String
  | [] => ""
  | [(k, v)] => k ++ ": " ++ printValue v
  | (k, v) :: fs => k ++ ": " ++ printValue v ++ ", " ++ printValueFields fs

end

mutual

/-- Printed form of a selection. -/
def printSelection : Selection → String
  | .field n args sels =>
    n ++ (if args.isEmpty then "" else "(" ++ printArgumentList args ++ ")")
      ++ (if sels.isEmpty then "" else " \x7b " ++ printSelectionList sels ++ " \x7d")

/-- Printed forms of arguments, comma separated. -/
def printArgumentList : List Argument → String
  | [] => ""
  | [a] => a.name ++ ": " ++ printValue a.value
  | a :: rest => a.name ++ ": " ++ printValue a.value ++ ", " ++ printArgumentList rest

/-- Printed forms of selections, space separated. -/
def printSelectionList : List Selection → String
  | [] => ""
  | [s] => printSelection s
  | s :: rest => printSelection s ++ " " ++ printSelectionList rest

end

/-- Printed form of a variable definition. -/
def printVariableDefinition (vd : VariableDefinition) : String :=
  "$" ++ vd.varName ++ ": " ++ vd.typeName

/-- Printed forms of variable definitions, comma separated. -/
def printVariableDefinitionList : List VariableDefinition → String
  | [] => ""
  | [vd] => printVariableDefinition vd
  | vd :: rest => printVariableDefinition vd ++ ", " ++ printVariableDefinitionList rest

/-- Printed form of an operation definition. -/
def printOperation (op : OperationDefinition) : String :=
  "query" ++ (match op.opName with | some n => " " ++ n | none => "")
    ++ (if op.variableDefinitions.isEmpty then ""
        else " (" ++ printVariableDefinitionList op.variableDefinitions ++ ")")
    ++ " \x7b " ++ printSelectionList op.selections ++ " \x7d"

/-- Printed forms of the operations of a document. -/
def printOperationList : List OperationDefinition → String
  | [] => ""
  | [op] => printOperation op
  | op :: rest => printOperation op ++ "\n" ++ printOperationList rest

/-- Printed form of a document. -/
def printDoc (d : DocumentNode) : String := printOperationList d.definitions

/-- The query formatter (replaceQueryVariables, src/steps/1.create-operation.ts),
at the level of an already parsed document: with no variables map the document
is printed unchanged; otherwise the edited tree is printed. -/
def replaceQueryVariables (doc : DocumentNode) (varsOpt : Option VarMap) : String :=
  match varsOpt with
  | none => printDoc doc
  | some vars => printDoc (replaceVariablesDoc vars doc)

/-! ### Counting variable references

`countRefs n atValueKey v` counts the references to variable `n` inside `v`,
split into (references sitting under a `value` key, references elsewhere). -/

/-- Componentwise sum of two counters. -/
def addPair (a b : Nat × Nat) : Nat × Nat := (a.1 + b.1, a.2 + b.2)

mutual

/-- Counts references to a variable in a value, split by position kind. -/
def countRefs (n : String) (atValueKey : Bool) : GqlValue → Nat × Nat
  | .varRef m =>
    if m = n then (if atValueKey then (1, 0) else (0, 1)) else (0, 0)
  | .strVal _ => (0, 0)
  | .intVal _ => (0, 0)
  | .boolVal _ => (0, 0)
  | .listVal vs => countRefsList n vs
  | .objVal fs => countRefsFields n fs

/-- Counts references in the elements of a list value. -/
def countRefsList (n : String) : List GqlValue → Nat × Nat
  | [] => (0, 0)
  | v :: vs => addPair (countRefs n false v) (countRefsList n vs)

/-- Counts references in the fields of an input object. -/
def countRefsFields (n : String) : List (String × GqlValue) → Nat × Nat
  | [] => (0, 0)
  | (_, v) :: fs => addPair (countRefs n true v) (countRefsFields n fs)

end

mutual

/-- Counts references in one selection. -/
def countRefsSelection (n : String) : Selection → Nat × Nat
  | .field _ args sels => addPair (countRefsArgs n args) (countRefsSelections n sels)

/-- Counts references in a list of arguments. -/
def countRefsArgs (n : String) : List Argument → Nat × Nat
  | [] => (0, 0)
  | a :: rest => addPair (countRefs n true a.value) (countRefsArgs n rest)

/-- Counts references in a list of selections. -/
def countRefsSelections (n : String) : List Selection → Nat × Nat
  | [] => (0, 0)
  | s :: rest => addPair (countRefsSelection n s) (countRefsSelections n rest)

end

/-- Counts references in the bodies of the operations of a document. -/
def countRefsOps (n : String) : List OperationDefinition → Nat × Nat
  | [] => (0, 0)
  | op :: rest => addPair (countRefsSelections n op.selections) (countRefsOps n rest)

/-- Counts references to a variable in the selection bodies of a document. -/
def countRefsDoc (n : String) (d : DocumentNode) : Nat × Nat :=
  countRefsOps n d.definitions

/-! ## The cache key digest

createHash (src/src/cache.ts) hashes the object built from the input query,
the input variables, and the store name and API version, through the external
ohash function.  ohash serializes objects with their keys sorted, so two
objects that agree as finite maps serialize identically; the digest is
modelled as that normalized serialization itself (a stand-in that is exact
about which inputs collide structurally, which is all the claims use). -/

/-- Inserts a field into a key-sorted field list. -/
def insertSortedByKey (p : String × Json) :
    List (String × Json) → List (String × Json)
  | [] => [p]
  | q :: l => if p.1 ≤ q.1 then p :: q :: l else q :: insertSortedByKey p l

/-- Sorts a field list by key. -/
def sortByKey : List (String × Json) → List (String × Json)
  | [] => []
  | p :: l => insertSortedByKey p (sortByKey l)

mutual

/-- The ohash normalization of a value: object keys are sorted at every
level. -/
def normJson : Json → Json
  | .null => .null
  | .bool b => .bool b
  | .num n => .num n
  | .str s => .str s
  | .arr vs => .arr (normList vs)
  | .obj fs => .obj (sortByKey (normFields fs))

/-- Normalizes the elements of an array. -/
def normList : List Json → List Json
  | [] => []
  | v :: vs => normJson v :: normList vs

/-- Normalizes the values of the fields of an object. -/
def normFields : List (String × Json) → List (String × Json)
  | [] => []
  | (k, v) :: fs => (k, normJson v) :: normFields fs

end

/-- The JSON value of an optional string (an absent value hashes as null). -/
def optionStrJson : Option String → Json
  | none => .null
  | some s => .str s

/-- The query to run, either raw text or an already parsed document. -/
inductive QueryInput where
  | str (s : String)
  | doc (d : DocumentNode)

/-- The value of the query slot in the hashed object: raw text hashes as the
string itself; a pre-parsed document object is hashed structurally by ohash,
modelled through its printed form (the claims use only that equal documents
hash equally). -/
def queryAsJson : QueryInput → Json
  | .str s => .str s
  | .doc d => .str (printDoc d)

/-- The value of the variables slot in the hashed object. -/
def varsToJson : Option VarMap → Json
  | none => .null
  | some m => .obj m

/-! ## Inputs, scripted remote responses, and events -/

/-- The store configuration (StoreInput, src/src/types/input.ts). -/
structure StoreInput where
  name : String
  accessToken : String
  apiVersion : Option String

/-- The options shared by the run and resume entry points (BaseInput,
src/src/types/input.ts).  The logs option is omitted: logging is observational
only and enters no claim. -/
structure BaseInput where
  store : StoreInput
  query : QueryInput
  varsInput : Option VarMap
  interval : Option Nat
  cache : Option (Bool ⊕ String)

/-- The input of the resume entry point (ResumeExportInput,
src/src/functions/resume-export.ts). -/
structure ResumeInput extends BaseInput where
  operationId : String

/-- Creates a hash for a specific input operation, over the input query, input
variables, and the input store name and API version (createHash,
src/src/cache.ts).  The access token, interval, logging and cache options do
not enter the digest. -/
def createHash (input : BaseInput) : String :=
  jsonStringify (normJson (.obj [
    ("query", queryAsJson input.query),
    ("variables", varsToJson input.varsInput),
    ("store", .obj [
      ("name", .str input.store.name),
      ("apiVersion", optionStrJson input.store.apiVersion)])]))

/-- A bulk operation status (BulkOperationStatus,
src/src/types/bulk-queries.ts). -/
inductive BulkOperationStatus where
  | canceled
  | canceling
  | completed
  | created
  | expired
  | failed
  | running
deriving DecidableEq, Repr

/-- The node returned by the bulk status query when present: its typename, the
job status, the job error code when any, the object count, and the download
URL when any. -/
structure BulkNode where
  typename : String
  status : BulkOperationStatus
  errorCode : Option String
  objectCount : Nat
  url : Option String

/-- One response of the status endpoint: optional top-level GraphQL errors and
the optional bulk node (absent when the data key or its bulk field is
missing). -/
structure StatusResponse where
  errors : List String
  bulk : Option BulkNode

/-- JavaScript truthiness of an optional string: absent and empty are both
falsy. -/
def strTruthy : Option String → Bool
  | none => false
  | some s => s ≠ ""

/-- JavaScript truthiness of a JSON value. -/
def jsTruthyJson : Json → Bool
  | .null => false
  | .bool b => b
  | .num n => n ≠ 0
  | .str s => s ≠ ""
  | .arr _ => true
  | .obj _ => true

/-- The reason a poll tick or a submission is classified fatal (the error
taxonomy of the spec). -/
inductive FatalReason where
  | remoteUserError (message : String)
  | remoteProtocolError (message : String)
  | jobFailed (code : String)
deriving DecidableEq, Repr

/-- The outcome of one poll tick (JobOutcome). -/
inductive JobOutcome where
  | continueOp
  | emptyResult
  | success (url : Option String)
  | fatal (reason : FatalReason)
deriving DecidableEq, Repr

/-- Classification of one status response, exactly as one iteration of the
pWaitFor body of waitForQuery (src/src/steps/2.query-status.ts) decides it:
top-level errors throw first; a missing bulk payload throws; a typename other
than BulkOperation throws; a truthy errorCode throws; on Completed a zero
object count ends the wait with no URL while a nonzero count ends it
recording the url field; anything else continues waiting. -/
def classifyTick (r : StatusResponse) : JobOutcome :=
  if ¬ r.errors.isEmpty then .fatal (.remoteUserError (r.errors.headD ""))
  else
    match r.bulk with
    | none => .fatal (.remoteProtocolError "missing data.bulk key in response")
    | some b =>
      if b.typename ≠ "BulkOperation" then
        .fatal (.remoteProtocolError "wrong typename returned from the bulk operation status query")
      else if strTruthy b.errorCode then .fatal (.jobFailed (b.errorCode.getD ""))
      else if b.status = .completed then
        if b.objectCount = 0 then .emptyResult
        else .success b.url
      else .continueOp

/-- An observable step of a run: cache construction (which touches the
filesystem), a cache lookup (hit reads the entry file, miss touches nothing
beyond the in-memory index), a cache write, the query formatter invocation,
and the three kinds of network calls. -/
inductive Event where
  | cacheInit
  | cacheGetMiss
  | cacheGetHit
  | cachePut
  | format
  | submit
  | poll
  | wait (ms : Nat)
  | download (url : String)
deriving DecidableEq, Repr

/-- Network calls: the submit mutation, a status poll, and the streaming
fetch. -/
def Event.isNetwork : Event → Bool
  | .submit => true
  | .poll => true
  | .download _ => true
  | _ => false

/-- Filesystem touches: cache construction (ensureDir and the directory
scan), reading a cache entry on a hit, and writing one. -/
def Event.isFsAccess : Event → Bool
  | .cacheInit => true
  | .cacheGetHit => true
  | .cachePut => true
  | _ => false

/-- Cache lookups, hit or miss. -/
def Event.isCacheLookup : Event → Bool
  | .cacheGetMiss => true
  | .cacheGetHit => true
  | _ => false

/-- The result of driving the poll loop over a scripted sequence of
responses. -/
inductive PollResult where
  | pending
  | fatal (reason : FatalReason)
  | finished (downloadUrl : Option String)
deriving DecidableEq, Repr

/-- The pWaitFor loop of waitForQuery over scripted responses: each tick polls
once; a continue tick suspends for the interval and recurs; a terminal tick
ends the loop, a fatal tick rejects.  When the script runs out the job is
still pending (the real loop is unbounded). -/
def pollLoop (interval : Nat) : List StatusResponse → PollResult × List Event
  | [] => (.pending, [])
  | r :: rest =>
    match classifyTick r with
    | .fatal f => (.fatal f, [.poll])
    | .emptyResult => (.finished none, [.poll])
    | .success u => (.finished u, [.poll])
    | .continueOp =>
      let p := pollLoop interval rest
      (p.1, .poll :: .wait interval :: p.2)

/-- waitForQuery (src/src/steps/2.query-status.ts): drives the poll loop with
the configured interval, defaulting to 20000 ms. -/
def waitForQuery (interval : Option Nat) (script : List StatusResponse) :
    PollResult × List Event :=
  pollLoop (interval.getD 20000) script

/-- The payload of the submit mutation response
(data.bulkOperationRunQuery). -/
structure SubmitPayload where
  userErrors : List String
  operationId : Option String
  operationStatus : Option BulkOperationStatus

/-- The response of the submit mutation: optional top-level errors and the
optional payload. -/
structure SubmitResponse where
  errors : List String
  payload : Option SubmitPayload

/-- Classification of the submit response, exactly as startBulkQuery
(src/steps/1.create-operation.ts) decides it: top-level errors throw; a
missing payload throws; user errors throw; a created job already in the
Failed state throws; a missing or empty operation id throws; otherwise the id
is returned. -/
def startBulkQuery (r : SubmitResponse) : Except String String :=
  if ¬ r.errors.isEmpty then .error (r.errors.headD "")
  else
    match r.payload with
    | none => .error "missing data.bulkOperationRunQuery key in response"
    | some p =>
      if ¬ p.userErrors.isEmpty then .error (p.userErrors.headD "")
      else if p.operationStatus = some .failed then .error "failed to create bulk operation"
      else if ¬ strTruthy p.operationId then .error "missing bulk operation ID from the returned response"
      else .ok (p.operationId.getD "")

/-- The scripted remote world one run executes against: the submit response,
the successive status responses, and the download stream (the lines received,
and a network fault position when the stream breaks after them). -/
structure World where
  submitResponse : SubmitResponse
  statusScript : List StatusResponse
  downloadLines : List String
  downloadFault : Option String

/-- Parses the received lines of the download stream in arrival order,
skipping empty lines and parsing every other line as one JSON record
(downloadData, src/src/steps/3.download-results.ts); the first parse failure
aborts the whole operation. -/
def parseLines : List String → Except String (List Json)
  | [] => .ok []
  | line :: rest =>
    if line = "" then parseLines rest
    else
      match jsonParse line with
      | none => .error ("unexpected token while parsing line " ++ line)
      | some v =>
        match parseLines rest with
        | .ok vs => .ok (v :: vs)
        | .error e => .error e

/-- downloadData (src/src/steps/3.download-results.ts) over the scripted
stream: decodes the received lines, and if the stream broke, the whole
operation fails; no partial list is ever returned. -/
def downloadData (lines : List String) (fault : Option String) :
    Except String (List Json) :=
  match parseLines lines with
  | .error e => .error e
  | .ok vs =>
    match fault with
    | some e => .error e
    | none => .ok vs

/-! ## The cache -/

/-- The cache directory contents: one serialized entry per key. -/
abbrev CacheDir := List (String × String)

/-- Whether the cache is enabled: an explicit boolean decides, anything else
(absent, or a custom directory string) leaves it enabled (createCache,
src/src/cache.ts). -/
def cacheEnabled : Option (Bool ⊕ String) → Bool
  | some (.inl b) => b
  | _ => true

/-- The cache get helper: disabled it reports absent and touches nothing;
enabled it looks the digest up in the index built from the directory, and on a
hit reads and JSON-parses the entry file (createCache, src/src/cache.ts).  A
hit that fails to parse propagates the parse error. -/
def cacheGet (enabled : Bool) (dir : CacheDir) (key : String) :
    Except String (Option Json) × List Event :=
  if enabled then
    match dir.lookup key with
    | none => (.ok none, [.cacheGetMiss])
    | some blob =>
      match jsonParse blob with
      | some v => (.ok (some v), [.cacheGetHit])
      | none => (.error "cache entry is not valid JSON", [.cacheGetHit])
  else (.ok none, [])

/-- The cache put helper: disabled it is a no-op; enabled it serializes the
data and writes the entry file named by the digest (createCache,
src/src/cache.ts). -/
def cachePut (enabled : Bool) (key : String) (v : Json) (dir : CacheDir) :
    CacheDir × List Event :=
  if enabled then ((key, jsonStringify v) :: dir, [.cachePut]) else (dir, [])

/-! ## The orchestrators -/

/-- An error escaping a run, per the taxonomy of the spec. -/
inductive ExportError where
  | inputValidation (message : String)
  | cacheError (message : String)
  | submitError (message : String)
  | pollFatal (reason : FatalReason)
  | streamingError (message : String)
deriving DecidableEq, Repr

/-- The observable result of a run: a value, an error, or still pending when
the scripted status responses ran out before a terminal tick. -/
inductive RunOutcome where
  | ok (value : Json)
  | error (e : ExportError)
  | pending

/-- The outcome of a run together with the cache directory it leaves behind and
the trace of its observable events. -/
structure RunResult where
  outcome : RunOutcome
  cacheDir : CacheDir
  events : List Event

/-- Truthiness of a query input: only the empty raw string is falsy. -/
def queryTruthy : QueryInput → Bool
  | .str s => s ≠ ""
  | .doc _ => true

/-- The input assertions of runBulkExport: store name, access token and query
must be truthy. -/
def validateRun (input : BaseInput) : Option String :=
  if input.store.name = "" then some "Missing store name input"
  else if input.store.accessToken = "" then some "Missing store accessToken input"
  else if ¬ queryTruthy input.query then some "Missing input query"
  else none

/-- The input assertions of resumeBulkExport: store name, access token and
operation id must be truthy. -/
def validateResume (input : ResumeInput) : Option String :=
  if input.store.name = "" then some "Missing store name input"
  else if input.store.accessToken = "" then some "Missing store accessToken input"
  else if input.operationId = "" then some "Missing operation id input"
  else none

/-- The shared tail of both entry points after the poll phase: nothing to
download ends with an empty array; otherwise the stream is fetched, decoded,
and the result written to the cache before being returned. -/
def finishExport (enabled : Bool) (key : String) (w : World) (dir : CacheDir)
    (pollOutcome : PollResult) (eventsSoFar : List Event) : RunResult :=
  match pollOutcome with
  | .pending => ⟨.pending, dir, eventsSoFar⟩
  | .fatal f => ⟨.error (.pollFatal f), dir, eventsSoFar⟩
  | .finished u =>
    match u with
    | none => ⟨.ok (.arr []), dir, eventsSoFar⟩
    | some url =>
      if url = "" then ⟨.ok (.arr []), dir, eventsSoFar⟩
      else
        match downloadData w.downloadLines w.downloadFault with
        | .error e => ⟨.error (.streamingError e), dir, eventsSoFar ++ [.download url]⟩
        | .ok nodes =>
          let p := cachePut enabled key (.arr nodes) dir
          ⟨.ok (.arr nodes), p.1, eventsSoFar ++ [.download url] ++ p.2⟩

/-- The cache-miss pipeline of runBulkExport: format, submit, poll, finish. -/
def runMissPipeline (input : BaseInput) (w : World) (dir : CacheDir)
    (enabled : Bool) (key : String) (eventsSoFar : List Event) : RunResult :=
  match startBulkQuery w.submitResponse with
  | .error msg => ⟨.error (.submitError msg), dir, eventsSoFar ++ [.format, .submit]⟩
  | .ok _opId =>
    let p := waitForQuery input.interval w.statusScript
    finishExport enabled key w dir p.1 (eventsSoFar ++ [.format, .submit] ++ p.2)

/-- runBulkExport (src/functions/run-bulk-export.ts): validate the input,
construct the cache and consult it, and on a miss format the query, submit
it, poll to a terminal state, then download, cache and return. -/
def runBulkExport (input : BaseInput) (w : World) (dir : CacheDir) : RunResult :=
  match validateRun input with
  | some msg => ⟨.error (.inputValidation msg), dir, []⟩
  | none =>
    let enabled := cacheEnabled input.cache
    let initEvents := if enabled then [Event.cacheInit] else []
    let key := createHash input
    match cacheGet enabled dir key with
    | (.error msg, getEvents) => ⟨.error (.cacheError msg), dir, initEvents ++ getEvents⟩
    | (.ok cached, getEvents) =>
      match cached with
      | some v =>
        if jsTruthyJson v then ⟨.ok v, dir, initEvents ++ getEvents⟩
        else
          runMissPipeline input w dir enabled key (initEvents ++ getEvents)
      | none => runMissPipeline input w dir enabled key (initEvents ++ getEvents)


/-- The cache-miss pipeline of resumeBulkExport: poll and finish, with no
formatting and no submission. -/
def resumeMissPipeline (input : ResumeInput) (w : World) (dir : CacheDir)
    (enabled : Bool) (key : String) (eventsSoFar : List Event) : RunResult :=
  let p := waitForQuery input.interval w.statusScript
  finishExport enabled key w dir p.1 (eventsSoFar ++ p.2)

/-- resumeBulkExport (src/src/functions/resume-export.ts): validate the
input, construct the cache and consult it, and on a miss skip formatting and
submission entirely, polling the supplied operation id directly. -/
def resumeBulkExport (input : ResumeInput) (w : World) (dir : CacheDir) : RunResult :=
  match validateResume input with
  | some msg => ⟨.error (.inputValidation msg), dir, []⟩
  | none =>
    let enabled := cacheEnabled input.cache
    let initEvents := if enabled then [Event.cacheInit] else []
    let key := createHash input.toBaseInput
    match cacheGet enabled dir key with
    | (.error msg, getEvents) => ⟨.error (.cacheError msg), dir, initEvents ++ getEvents⟩
    | (.ok cached, getEvents) =>
      match cached with
      | some v =>
        if jsTruthyJson v then ⟨.ok v, dir, initEvents ++ getEvents⟩
        else
          resumeMissPipeline input w dir enabled key (initEvents ++ getEvents)
      | none => resumeMissPipeline input w dir enabled key (initEvents ++ getEvents)


/-- Folds a sequence of runs, threading the cache directory and concatenating
the traces. -/
def runSequence : List (BaseInput × World) → CacheDir → CacheDir × List Event
  | [], dir => (dir, [])
  | (i, w) :: rest, dir =>
    let r := runBulkExport i w dir
    let t := runSequence rest r.cacheDir
    (t.1, r.events ++ t.2)

/-- Holds when every cache lookup in a trace happens before every network
call: after the first network event no lookup occurs. -/
def lookupsPrecedeNetwork (events : List Event) : Bool :=
  (events.dropWhile fun e => !e.isNetwork).all fun e => !e.isCacheLookup

/-- The trace of a run of continue ticks: a poll and a suspension per tick. -/
def pollWaits (i : Nat) : Nat → List Event
  | 0 => []
  | n + 1 => .poll :: .wait i :: pollWaits i n

/-- Modelled from the spec: the poll classification rules of section 4.3, in
the order given by the spec, written independently of the source translation
(`classifyTick`) so the two can be compared.  (1) top-level errors are a
remote user error; (2) a missing payload and (3) a wrong node kind are remote
protocol errors; (4) a job error code is a job failure; (5) Completed ends the
job, empty at count zero and successful with the download URL otherwise;
(6) anything else continues. -/
def specClassify (r : StatusResponse) : JobOutcome :=
  if r.errors ≠ [] then .fatal (.remoteUserError (r.errors.headD ""))
  else
    match r.bulk with
    | none => .fatal (.remoteProtocolError "missing data.bulk key in response")
    | some b =>
      if b.typename ≠ "BulkOperation" then
        .fatal (.remoteProtocolError "wrong typename returned from the bulk operation status query")
      else if strTruthy b.errorCode then .fatal (.jobFailed (b.errorCode.getD ""))
      else if b.status = .completed ∧ b.objectCount = 0 then .emptyResult
      else if b.status = .completed then .success b.url
      else .continueOp

/-- A document whose single operation declares `$a` and references it inside a
list-valued argument: `query Q ($a: ID) \x7b f(ids: [$a]) \x7d`. -/
def listVarDoc : DocumentNode :=
  ⟨[⟨some "Q", [⟨"a", "ID"⟩], [.field "f" [⟨"ids", .listVal [.varRef "a"]⟩] []]⟩]⟩

/-- A minimal store fixture for concrete witnesses. -/
def witnessStore : StoreInput := ⟨"shop1", "token", none⟩

/-- A minimal valid run input fixture for concrete witnesses. -/
def witnessInput : BaseInput :=
  ⟨witnessStore, .str "query Products", none, none, none⟩

/-- A submit response fixture that yields an operation id. -/
def witnessSubmit : SubmitResponse := ⟨[], some ⟨[], some "gid-1", some .created⟩⟩

/-- A clean completed bulk node with two objects and a download URL. -/
def witnessBulkDone : BulkNode :=
  ⟨"BulkOperation", .completed, none, 2, some "https://example.com/file"⟩

/-- A clean running bulk node. -/
def witnessBulkRunning : BulkNode :=
  ⟨"BulkOperation", .running, none, 0, none⟩

/-- A clean completed bulk node with zero objects. -/
def witnessBulkEmpty : BulkNode :=
  ⟨"BulkOperation", .completed, none, 0, none⟩

/-- A world fixture: one submit, a running tick then a completed tick, and a
two-line download stream. -/
def witnessWorld : World :=
  ⟨witnessSubmit,
   [⟨[], some witnessBulkRunning⟩, ⟨[], some witnessBulkDone⟩],
   ["\x7b\"id\":1\x7d", "\x7b\"id\":2\x7d", ""],
   none⟩

/-- A world fixture whose single status tick is Completed with zero
objects. -/
def witnessWorldEmpty : World :=
  ⟨witnessSubmit, [⟨[], some witnessBulkEmpty⟩], [], none⟩

/-- A clean completed bulk node with a nonzero object count but no download
URL. -/
def witnessBulkNoUrl : BulkNode :=
  ⟨"BulkOperation", .completed, none, 3, none⟩

/-- A world fixture whose single status tick is Completed with objects but a
null URL. -/
def witnessWorldNoUrl : World :=
  ⟨witnessSubmit, [⟨[], some witnessBulkNoUrl⟩], [], none⟩

/-- A resume input fixture. -/
def witnessResume : ResumeInput := ⟨witnessInput, "gid-999"⟩

/-- A run input fixture with the cache explicitly disabled. -/
def witnessInputNoCache : BaseInput :=
  ⟨witnessStore, .str "query Products", none, none, some (.inl false)⟩

/-! ### Round trip of the JSON codec -/

theorem digitOf_spec (d : Nat) (h : d < 10) :
    isDigitCh (digitOf d) = true ∧ (digitOf d).toNat - 48 = d := by
  interval_cases d <;> exact ⟨by decide, by decide⟩

theorem natCharsAux_all_digits :
    ∀ fuel n, n < fuel → ∀ c ∈ natCharsAux fuel n, isDigitCh c = true := by
  intro fuel
  induction fuel with
  | zero => intro n hn; omega
  | succ f ih =>
    intro n _ c hc
    rw [natCharsAux] at hc
    by_cases h10 : n < 10
    · rw [if_pos h10] at hc
      simp only [List.mem_singleton] at hc
      subst hc
      exact (digitOf_spec _ h10).1
    · rw [if_neg h10] at hc
      rcases List.mem_append.mp hc with h1 | h2
      · refine ih (n / 10) ?_ c h1
        have := Nat.div_lt_self (show 0 < n by omega) (show 1 < 10 by omega)
        omega
      · simp only [List.mem_singleton] at h2
        subst h2
        exact (digitOf_spec _ (Nat.mod_lt _ (by omega))).1

theorem natChars_all_digits (n : Nat) : ∀ c ∈ natChars n, isDigitCh c = true :=
  natCharsAux_all_digits (n + 1) n (by omega)

theorem natCharsAux_ne_nil (fuel n : Nat) (h : n < fuel) :
    natCharsAux fuel n ≠ [] := by
  match fuel with
  | 0 => omega
  | f + 1 =>
    rw [natCharsAux]
    by_cases h10 : n < 10 <;> simp [h10]

theorem natChars_ne_nil (n : Nat) : natChars n ≠ [] :=
  natCharsAux_ne_nil (n + 1) n (by omega)

theorem digitsVal_append_one (ds : List Char) (c : Char) :
    digitsVal (ds ++ [c]) = digitsVal ds * 10 + (c.toNat - 48) := by
  simp [digitsVal, List.foldl_append]

theorem digitsVal_natCharsAux :
    ∀ fuel n, n < fuel → digitsVal (natCharsAux fuel n) = n := by
  intro fuel
  induction fuel with
  | zero => intro n hn; omega
  | succ f ih =>
    intro n _
    rw [natCharsAux]
    by_cases h10 : n < 10
    · rw [if_pos h10]
      have := (digitOf_spec n h10).2
      simp [digitsVal]
      omega
    · have hdiv : n / 10 < f := by
        have := Nat.div_lt_self (show 0 < n by omega) (show 1 < 10 by omega)
        omega
      rw [if_neg h10, digitsVal_append_one, ih (n / 10) hdiv,
          (digitOf_spec (n % 10) (Nat.mod_lt _ (by omega))).2]
      omega

theorem digitsVal_natChars (n : Nat) : digitsVal (natChars n) = n :=
  digitsVal_natCharsAux (n + 1) n (by omega)

theorem takeDigits_digits_append (ds rest : List Char)
    (hds : ∀ c ∈ ds, isDigitCh c = true) (hrest : nonDigitStart rest = true) :
    takeDigits (ds ++ rest) = (ds, rest) := by
  induction ds with
  | nil =>
    match rest with
    | [] => rfl
    | c :: t =>
      simp only [nonDigitStart, Bool.not_eq_true'] at hrest
      simp [takeDigits, hrest]
  | cons c t ih =>
    have hc := hds c (by simp)
    have ht := ih (fun x hx => hds x (by simp [hx]))
    simp [takeDigits, hc, ht]

theorem parseNatChars_natChars (n : Nat) (rest : List Char)
    (hrest : nonDigitStart rest = true) :
    parseNatChars (natChars n ++ rest) = some (n, rest) := by
  rw [parseNatChars,
    takeDigits_digits_append _ _ (natChars_all_digits n) hrest]
  have hne := natChars_ne_nil n
  have hval := digitsVal_natChars n
  match h : natChars n with
  | [] => exact absurd h hne
  | c :: t =>
    rw [h] at hval
    simp [hval]

theorem parseStrBody_escBody (cs : List Char) :
    ∀ rest, parseStrBody (escBody cs ++ '"' :: rest) = some (cs, rest) := by
  induction cs with
  | nil =>
    intro rest
    rw [escBody, List.nil_append, parseStrBody.eq_def]
    simp
  | cons c t ih =>
    intro rest
    by_cases hq : c = '"'
    · subst hq
      rw [escBody, show escCh '"' = ['\\', '"'] from by simp [escCh],
        List.cons_append, List.cons_append, parseStrBody.eq_def]
      simp [ih, unescCh]
    · by_cases hb : c = '\\'
      · subst hb
        rw [escBody, show escCh '\\' = ['\\', '\\'] from by simp [escCh],
          List.cons_append, List.cons_append, parseStrBody.eq_def]
        simp [ih, unescCh]
      · rw [escBody, show escCh c = [c] from by simp [escCh, hq, hb],
          List.cons_append, parseStrBody.eq_def]
        simp [hq, hb, ih]

theorem digit_not_marker {c : Char} (h : isDigitCh c = true) :
    c ≠ 'n' ∧ c ≠ 't' ∧ c ≠ 'f' ∧ c ≠ '"' ∧ c ≠ '[' ∧ c ≠ '\x7b' ∧ c ≠ '-' ∧
      c ≠ ']' ∧ c ≠ '\x7d' := by
  refine ⟨?_, ?_, ?_, ?_, ?_, ?_, ?_, ?_, ?_⟩ <;>
    (intro he; subst he; exact absurd h (by decide))

theorem renderJson_head (v : Json) :
    ∃ c t, renderJson v = c :: t ∧ c ≠ ']' ∧ c ≠ '\x7d' := by
  match v with
  | .null => exact ⟨'n', _, rfl, by decide, by decide⟩
  | .bool true => exact ⟨'t', _, rfl, by decide, by decide⟩
  | .bool false => exact ⟨'f', _, rfl, by decide, by decide⟩
  | .str s => exact ⟨'"', _, rfl, by decide, by decide⟩
  | .arr [] => exact ⟨'[', _, rfl, by decide, by decide⟩
  | .arr (v :: vs) => exact ⟨'[', _, rfl, by decide, by decide⟩
  | .obj [] => exact ⟨'\x7b', _, rfl, by decide, by decide⟩
  | .obj (f :: fs) => exact ⟨'\x7b', _, rfl, by decide, by decide⟩
  | .num (.ofNat n) =>
    have hne := natChars_ne_nil n
    match h : natChars n with
    | [] => exact absurd h hne
    | c :: t =>
      have hd : isDigitCh c = true :=
        natChars_all_digits n c (h ▸ List.mem_cons_self c t)
      have hm := digit_not_marker hd
      exact ⟨c, t, by simp [renderJson, intChars, h], hm.2.2.2.2.2.2.2.1,
        hm.2.2.2.2.2.2.2.2⟩
  | .num (.negSucc m) => exact ⟨'-', _, rfl, by decide, by decide⟩

theorem nonDigitStart_cons (c : Char) (t : List Char) (h : isDigitCh c = false) :
    nonDigitStart (c :: t) = true := by
  simp [nonDigitStart, h]

theorem nonDigitStart_moreElems (vs : List Json) (rest : List Char) :
    nonDigitStart (renderMoreElems vs ++ ']' :: rest) = true := by
  cases vs with
  | nil => exact nonDigitStart_cons _ _ (by decide)
  | cons v vs =>
    rw [show renderMoreElems (v :: vs) = ',' :: (renderJson v ++ renderMoreElems vs)
      from by rw [renderMoreElems], List.cons_append]
    exact nonDigitStart_cons _ _ (by decide)

theorem nonDigitStart_moreFields (fs : List (String × Json)) (rest : List Char) :
    nonDigitStart (renderMoreFields fs ++ '\x7d' :: rest) = true := by
  cases fs with
  | nil => exact nonDigitStart_cons _ _ (by decide)
  | cons f fs =>
    rw [show renderMoreFields (f :: fs) = ',' :: (renderOneField f ++ renderMoreFields fs)
      from by rw [renderMoreFields], List.cons_append]
    exact nonDigitStart_cons _ _ (by decide)

mutual

theorem parseJson_render : ∀ (v : Json) (fuel : Nat) (rest : List Char),
    (renderJson v ++ rest).length < fuel → nonDigitStart rest = true →
    parseJson fuel (renderJson v ++ rest) = some (v, rest)
  | .null, fuel, rest, hf, _ => by
    match fuel with
    | 0 => exact absurd hf (Nat.not_lt_zero _)
    | fuel + 1 =>
      rw [show renderJson .null ++ rest = 'n' :: 'u' :: 'l' :: 'l' :: rest from by
        rw [renderJson]; rfl]
      simp only [parseJson]
      simp
  | .bool true, fuel, rest, hf, _ => by
    match fuel with
    | 0 => exact absurd hf (Nat.not_lt_zero _)
    | fuel + 1 =>
      rw [show renderJson (.bool true) ++ rest = 't' :: 'r' :: 'u' :: 'e' :: rest from by
        rw [renderJson]; rfl]
      simp only [parseJson]
      simp
  | .bool false, fuel, rest, hf, _ => by
    match fuel with
    | 0 => exact absurd hf (Nat.not_lt_zero _)
    | fuel + 1 =>
      rw [show renderJson (.bool false) ++ rest = 'f' :: 'a' :: 'l' :: 's' :: 'e' :: rest from by
        rw [renderJson]; rfl]
      simp only [parseJson]
      simp
  | .num (.ofNat n), fuel, rest, hf, hr => by
    match fuel with
    | 0 => exact absurd hf (Nat.not_lt_zero _)
    | fuel + 1 =>
      have hne := natChars_ne_nil n
      match hct : natChars n with
      | [] => exact absurd hct hne
      | c :: t =>
        have hd : isDigitCh c = true :=
          natChars_all_digits n c (hct ▸ List.mem_cons_self c t)
        have hm := digit_not_marker hd
        have hp : parseNatChars (c :: (t ++ rest)) = some (n, rest) := by
          rw [show c :: (t ++ rest) = natChars n ++ rest from by rw [hct]; rfl]
          exact parseNatChars_natChars n rest hr
        rw [show renderJson (.num (.ofNat n)) ++ rest = c :: (t ++ rest) from by
          rw [renderJson, intChars, hct]; rfl]
        simp only [parseJson]
        simp [hm.1, hm.2.1, hm.2.2.1, hm.2.2.2.1, hm.2.2.2.2.1, hm.2.2.2.2.2.1,
          hm.2.2.2.2.2.2.1, hd, hp]
  | .num (.negSucc m), fuel, rest, hf, hr => by
    match fuel with
    | 0 => exact absurd hf (Nat.not_lt_zero _)
    | fuel + 1 =>
      have hp := parseNatChars_natChars (m + 1) rest hr
      rw [show renderJson (.num (.negSucc m)) ++ rest = '-' :: (natChars (m + 1) ++ rest) from by
        rw [renderJson, intChars]; rfl]
      simp only [parseJson]
      simp [hp]
      rw [Int.negSucc_eq]
      ring
  | .str s, fuel, rest, hf, _ => by
    match fuel with
    | 0 => exact absurd hf (Nat.not_lt_zero _)
    | fuel + 1 =>
      have hstr := parseStrBody_escBody s.data rest
      rw [show renderJson (.str s) ++ rest = '"' :: (escBody s.data ++ '"' :: rest) from by
        rw [renderJson]; simp]
      simp only [parseJson]
      simp [hstr]
  | .arr [], fuel, rest, hf, _ => by
    match fuel with
    | 0 => exact absurd hf (Nat.not_lt_zero _)
    | fuel + 1 =>
      rw [show renderJson (.arr []) ++ rest = '[' :: ']' :: rest from by
        rw [renderJson]; rfl]
      simp only [parseJson]
      simp
  | .arr (v :: vs), fuel, rest, hf, _ => by
    match fuel with
    | 0 => exact absurd hf (Nat.not_lt_zero _)
    | fuel + 1 =>
      have harg : renderJson (.arr (v :: vs)) ++ rest
          = '[' :: (renderJson v ++ (renderMoreElems vs ++ ']' :: rest)) := by
        rw [renderJson]; simp
      rw [harg] at hf
      simp only [List.length_cons, List.length_append] at hf
      have h1 : (renderJson v ++ (renderMoreElems vs ++ ']' :: rest)).length < fuel := by
        simp only [List.length_cons, List.length_append]; omega
      have h2 : (renderMoreElems vs ++ ']' :: rest).length < fuel := by
        simp only [List.length_cons, List.length_append]; omega
      have hv := parseJson_render v fuel (renderMoreElems vs ++ ']' :: rest) h1
        (nonDigitStart_moreElems vs rest)
      have hvs := parseMoreElems_render vs fuel rest h2
      obtain ⟨c, t, hct, hc1, _⟩ := renderJson_head v
      rw [hct, List.cons_append] at hv
      rw [harg, hct, List.cons_append]
      simp only [parseJson]
      simp [hc1, hv, hvs]
  | .obj [], fuel, rest, hf, _ => by
    match fuel with
    | 0 => exact absurd hf (Nat.not_lt_zero _)
    | fuel + 1 =>
      rw [show renderJson (.obj []) ++ rest = '\x7b' :: '\x7d' :: rest from by
        rw [renderJson]; rfl]
      simp only [parseJson]
      simp
  | .obj (f :: fs), fuel, rest, hf, _ => by
    match fuel with
    | 0 => exact absurd hf (Nat.not_lt_zero _)
    | fuel + 1 =>
      have harg : renderJson (.obj (f :: fs)) ++ rest
          = '\x7b' :: (renderOneField f ++ (renderMoreFields fs ++ '\x7d' :: rest)) := by
        rw [renderJson]; simp
      rw [harg] at hf
      simp only [List.length_cons, List.length_append] at hf
      have h1 : (renderOneField f ++ (renderMoreFields fs ++ '\x7d' :: rest)).length < fuel := by
        simp only [List.length_cons, List.length_append]; omega
      have h2 : (renderMoreFields fs ++ '\x7d' :: rest).length < fuel := by
        simp only [List.length_cons, List.length_append]; omega
      have hfield := parseOneField_render f fuel (renderMoreFields fs ++ '\x7d' :: rest) h1
        (nonDigitStart_moreFields fs rest)
      have hfs := parseMoreFields_render fs fuel rest h2
      obtain ⟨k, v⟩ := f
      have hhead : renderOneField (k, v) = '"' :: (escBody k.data ++ ['"', ':'] ++ renderJson v) := by
        rw [renderOneField]
      rw [hhead] at hfield
      simp only [List.cons_append, List.append_assoc, List.nil_append] at hfield
      rw [harg, hhead]
      simp only [List.cons_append, List.append_assoc]
      simp only [parseJson]
      simp [hfield, hfs]
  termination_by v _ _ _ _ => sizeOf v

theorem parseOneField_render : ∀ (f : String × Json) (fuel : Nat) (rest : List Char),
    (renderOneField f ++ rest).length < fuel → nonDigitStart rest = true →
    parseOneField fuel (renderOneField f ++ rest) = some (f, rest)
  | (k, v), fuel, rest, hf, hr => by
    match fuel with
    | 0 => exact absurd hf (Nat.not_lt_zero _)
    | fuel + 1 =>
      have harg : renderOneField (k, v) ++ rest
          = '"' :: (escBody k.data ++ '"' :: (':' :: (renderJson v ++ rest))) := by
        rw [renderOneField]; simp
      rw [harg] at hf
      simp only [List.length_cons, List.length_append] at hf
      have h1 : (renderJson v ++ rest).length < fuel := by
        simp only [List.length_append]; omega
      have hstr := parseStrBody_escBody k.data (':' :: (renderJson v ++ rest))
      have hv := parseJson_render v fuel rest h1 hr
      rw [harg, parseOneField.eq_def]
      simp [hstr, hv]
  termination_by f _ _ _ _ => sizeOf f

theorem parseMoreElems_render : ∀ (vs : List Json) (fuel : Nat) (rest : List Char),
    (renderMoreElems vs ++ ']' :: rest).length < fuel →
    parseMoreElems fuel (renderMoreElems vs ++ ']' :: rest) = some (vs, rest)
  | [], fuel, rest, hf => by
    match fuel with
    | 0 => exact absurd hf (Nat.not_lt_zero _)
    | fuel + 1 =>
      rw [show renderMoreElems [] ++ ']' :: rest = ']' :: rest from by
        rw [renderMoreElems]; rfl]
      simp only [parseMoreElems]
      simp
  | v :: vs, fuel, rest, hf => by
    match fuel with
    | 0 => exact absurd hf (Nat.not_lt_zero _)
    | fuel + 1 =>
      have harg : renderMoreElems (v :: vs) ++ ']' :: rest
          = ',' :: (renderJson v ++ (renderMoreElems vs ++ ']' :: rest)) := by
        rw [renderMoreElems]; simp
      rw [harg] at hf
      simp only [List.length_cons, List.length_append] at hf
      have h1 : (renderJson v ++ (renderMoreElems vs ++ ']' :: rest)).length < fuel := by
        simp only [List.length_cons, List.length_append]; omega
      have h2 : (renderMoreElems vs ++ ']' :: rest).length < fuel := by
        simp only [List.length_cons, List.length_append]; omega
      have hv := parseJson_render v fuel (renderMoreElems vs ++ ']' :: rest) h1
        (nonDigitStart_moreElems vs rest)
      have hvs := parseMoreElems_render vs fuel rest h2
      rw [harg, parseMoreElems.eq_def]
      simp [hv, hvs]
  termination_by vs _ _ _ => sizeOf vs

theorem parseMoreFields_render : ∀ (fs : List (String × Json)) (fuel : Nat) (rest : List Char),
    (renderMoreFields fs ++ '\x7d' :: rest).length < fuel →
    parseMoreFields fuel (renderMoreFields fs ++ '\x7d' :: rest) = some (fs, rest)
  | [], fuel, rest, hf => by
    match fuel with
    | 0 => exact absurd hf (Nat.not_lt_zero _)
    | fuel + 1 =>
      rw [show renderMoreFields [] ++ '\x7d' :: rest = '\x7d' :: rest from by
        rw [renderMoreFields]; rfl]
      simp only [parseMoreFields]
      simp
  | f :: fs, fuel, rest, hf => by
    match fuel with
    | 0 => exact absurd hf (Nat.not_lt_zero _)
    | fuel + 1 =>
      have harg : renderMoreFields (f :: fs) ++ '\x7d' :: rest
          = ',' :: (renderOneField f ++ (renderMoreFields fs ++ '\x7d' :: rest)) := by
        rw [renderMoreFields]; simp
      rw [harg] at hf
      simp only [List.length_cons, List.length_append] at hf
      have h1 : (renderOneField f ++ (renderMoreFields fs ++ '\x7d' :: rest)).length < fuel := by
        simp only [List.length_cons, List.length_append]; omega
      have h2 : (renderMoreFields fs ++ '\x7d' :: rest).length < fuel := by
        simp only [List.length_cons, List.length_append]; omega
      have hfield := parseOneField_render f fuel (renderMoreFields fs ++ '\x7d' :: rest) h1
        (nonDigitStart_moreFields fs rest)
      have hfs := parseMoreFields_render fs fuel rest h2
      rw [harg, parseMoreFields.eq_def]
      simp [hfield, hfs]
  termination_by fs _ _ _ => sizeOf fs

end

/-- The codec round trip: reading a stored cache entry back through the host
JSON parser recovers exactly the value that was written. -/
theorem jsonParse_stringify (v : Json) : jsonParse (jsonStringify v) = some v := by
  have hv := parseJson_render v ((renderJson v).length + 1) []
    (by simp) rfl
  rw [List.append_nil] at hv
  rw [jsonParse]
  rw [show (jsonStringify v).data = renderJson v from rfl]
  rw [hv]

/-! ### Stability of the key digest -/

theorem insertSortedByKey_perm (p : String × Json) (l : List (String × Json)) :
    (insertSortedByKey p l).Perm (p :: l) := by
  induction l with
  | nil => exact List.Perm.refl _
  | cons q t ih =>
    rw [insertSortedByKey]
    by_cases h : p.1 ≤ q.1
    · rw [if_pos h]
    · rw [if_neg h]
      exact (ih.cons q).trans (List.Perm.swap p q t)

theorem sortByKey_perm (l : List (String × Json)) : (sortByKey l).Perm l := by
  induction l with
  | nil => exact List.Perm.refl _
  | cons p t ih =>
    rw [sortByKey]
    exact (insertSortedByKey_perm p (sortByKey t)).trans (ih.cons p)

theorem insertSortedByKey_pairwise (p : String × Json) (l : List (String × Json))
    (h : l.Pairwise fun a b => a.1 ≤ b.1) :
    (insertSortedByKey p l).Pairwise fun a b => a.1 ≤ b.1 := by
  induction l with
  | nil => simp [insertSortedByKey]
  | cons q t ih =>
    rw [insertSortedByKey]
    rcases List.pairwise_cons.mp h with ⟨hq, ht⟩
    by_cases hle : p.1 ≤ q.1
    · rw [if_pos hle]
      refine List.Pairwise.cons ?_ h
      intro x hx
      rcases List.mem_cons.mp hx with rfl | hx
      · exact hle
      · exact le_trans hle (hq x hx)
    · rw [if_neg hle]
      refine List.Pairwise.cons ?_ (ih ht)
      intro x hx
      have hx' := (insertSortedByKey_perm p t).mem_iff.mp hx
      rcases List.mem_cons.mp hx' with rfl | hx2
      · exact le_of_not_le hle
      · exact hq x hx2

theorem sortByKey_pairwise (l : List (String × Json)) :
    (sortByKey l).Pairwise fun a b => a.1 ≤ b.1 := by
  induction l with
  | nil => simp [sortByKey]
  | cons p t ih =>
    rw [sortByKey]
    exact insertSortedByKey_pairwise p (sortByKey t) ih

theorem pairwise_keyLt (l : List (String × Json))
    (hle : l.Pairwise fun a b => a.1 ≤ b.1) (hnd : (l.map Prod.fst).Nodup) :
    l.Pairwise fun a b => a.1 < b.1 := by
  have hne : l.Pairwise fun a b => a.1 ≠ b.1 := List.pairwise_map.mp hnd
  exact (hle.and hne).imp fun h => lt_of_le_of_ne h.1 h.2

theorem sortByKey_eq_of_perm (l1 l2 : List (String × Json)) (hp : l1.Perm l2)
    (hnd : (l1.map Prod.fst).Nodup) : sortByKey l1 = sortByKey l2 := by
  have hperm : (sortByKey l1).Perm (sortByKey l2) :=
    (sortByKey_perm l1).trans (hp.trans (sortByKey_perm l2).symm)
  have hnd1 : ((sortByKey l1).map Prod.fst).Nodup :=
    (((sortByKey_perm l1).map Prod.fst).nodup_iff).mpr hnd
  have hnd2 : ((sortByKey l2).map Prod.fst).Nodup := by
    refine (((sortByKey_perm l2).map Prod.fst).nodup_iff).mpr ?_
    exact ((hp.map Prod.fst).nodup_iff).mp hnd
  have hlt1 := pairwise_keyLt _ (sortByKey_pairwise l1) hnd1
  have hlt2 := pairwise_keyLt _ (sortByKey_pairwise l2) hnd2
  haveI : IsAntisymm (String × Json) (fun a b => a.1 < b.1) :=
    ⟨fun a b h1 h2 => absurd (lt_trans h1 h2) (lt_irrefl _)⟩
  exact List.eq_of_perm_of_sorted hperm hlt1 hlt2

theorem normFields_eq_map (l : List (String × Json)) :
    normFields l = l.map fun p => (p.1, normJson p.2) := by
  induction l with
  | nil => simp [normFields]
  | cons p t ih =>
    obtain ⟨k, v⟩ := p
    simp only [normFields, ih, List.map_cons]

theorem normJson_vars_perm (v1 v2 : List (String × Json)) (hp : v1.Perm v2)
    (hnd : (v1.map Prod.fst).Nodup) : normJson (.obj v1) = normJson (.obj v2) := by
  simp only [normJson]
  rw [normFields_eq_map, normFields_eq_map]
  congr 1
  refine sortByKey_eq_of_perm _ _ (hp.map _) ?_
  rw [List.map_map]
  exact hnd

/-! ### Behaviour of the variable substitution

The three facts threaded through the tree: the count of references sitting
elsewhere than under a `value` key never changes; when the variable is mapped,
no reference under a `value` key survives; when it is not mapped, all its
reference counts are untouched. -/

mutual

theorem visitValue_counts (n : String) (vars : VarMap) :
    ∀ (b : Bool) (v : GqlValue),
    (countRefs n b (visitValue vars b v)).2 = (countRefs n b v).2
    ∧ (vars.lookup n ≠ none → (countRefs n b (visitValue vars b v)).1 = 0)
    ∧ (vars.lookup n = none → countRefs n b (visitValue vars b v) = countRefs n b v)
  | b, .varRef m => by
    by_cases hm : m = n
    · subst hm
      cases b with
      | false =>
        refine ⟨?_, ?_, ?_⟩ <;> simp [visitValue, countRefs]
      | true =>
        cases hl : vars.lookup m with
        | some j =>
          refine ⟨?_, ?_, ?_⟩ <;> simp [visitValue, countRefs, hl]
        | none =>
          refine ⟨?_, ?_, ?_⟩ <;> simp [visitValue, countRefs, hl]
    · cases b with
      | false =>
        refine ⟨?_, ?_, ?_⟩ <;> simp [visitValue, countRefs, hm]
      | true =>
        cases hl : vars.lookup m with
        | some j =>
          refine ⟨?_, ?_, ?_⟩ <;> simp [visitValue, countRefs, hm, hl]
        | none =>
          refine ⟨?_, ?_, ?_⟩ <;> simp [visitValue, countRefs, hm, hl]
  | b, .strVal j => by
    refine ⟨?_, ?_, ?_⟩ <;> simp [visitValue, countRefs]
  | b, .intVal i => by
    refine ⟨?_, ?_, ?_⟩ <;> simp [visitValue, countRefs]
  | b, .boolVal bv => by
    refine ⟨?_, ?_, ?_⟩ <;> simp [visitValue, countRefs]
  | b, .listVal vs => by
    obtain ⟨ha, hb, hc⟩ := visitValueList_counts n vars vs
    refine ⟨?_, ?_, ?_⟩
    · simp [visitValue, countRefs, ha]
    · intro h
      simp [visitValue, countRefs, hb h]
    · intro h
      simp [visitValue, countRefs, hc h]
  | b, .objVal fs => by
    obtain ⟨ha, hb, hc⟩ := visitValueFields_counts n vars fs
    refine ⟨?_, ?_, ?_⟩
    · simp [visitValue, countRefs, ha]
    · intro h
      simp [visitValue, countRefs, hb h]
    · intro h
      simp [visitValue, countRefs, hc h]

theorem visitValueList_counts (n : String) (vars : VarMap) :
    ∀ (vs : List GqlValue),
    (countRefsList n (visitValueList vars vs)).2 = (countRefsList n vs).2
    ∧ (vars.lookup n ≠ none → (countRefsList n (visitValueList vars vs)).1 = 0)
    ∧ (vars.lookup n = none →
        countRefsList n (visitValueList vars vs) = countRefsList n vs)
  | [] => ⟨rfl, fun _ => rfl, fun _ => rfl⟩
  | v :: vs => by
    obtain ⟨ha, hb, hc⟩ := visitValue_counts n vars false v
    obtain ⟨ha2, hb2, hc2⟩ := visitValueList_counts n vars vs
    refine ⟨?_, ?_, ?_⟩
    · simp [visitValueList, countRefsList, addPair, ha, ha2]
    · intro h
      simp [visitValueList, countRefsList, addPair, hb h, hb2 h]
    · intro h
      simp [visitValueList, countRefsList, hc h, hc2 h]

theorem visitValueFields_counts (n : String) (vars : VarMap) :
    ∀ (fs : List (String × GqlValue)),
    (countRefsFields n (visitValueFields vars fs)).2 = (countRefsFields n fs).2
    ∧ (vars.lookup n ≠ none → (countRefsFields n (visitValueFields vars fs)).1 = 0)
    ∧ (vars.lookup n = none →
        countRefsFields n (visitValueFields vars fs) = countRefsFields n fs)
  | [] => ⟨rfl, fun _ => rfl, fun _ => rfl⟩
  | (k, v) :: fs => by
    obtain ⟨ha, hb, hc⟩ := visitValue_counts n vars true v
    obtain ⟨ha2, hb2, hc2⟩ := visitValueFields_counts n vars fs
    refine ⟨?_, ?_, ?_⟩
    · simp [visitValueFields, countRefsFields, addPair, ha, ha2]
    · intro h
      simp [visitValueFields, countRefsFields, addPair, hb h, hb2 h]
    · intro h
      simp [visitValueFields, countRefsFields, hc h, hc2 h]

end

mutual

theorem visitSelection_counts (n : String) (vars : VarMap) :
    ∀ (s : Selection),
    (countRefsSelection n (visitSelection vars s)).2 = (countRefsSelection n s).2
    ∧ (vars.lookup n ≠ none → (countRefsSelection n (visitSelection vars s)).1 = 0)
    ∧ (vars.lookup n = none →
        countRefsSelection n (visitSelection vars s) = countRefsSelection n s)
  | .field f args sels => by
    obtain ⟨ha, hb, hc⟩ := visitArgumentList_counts n vars args
    obtain ⟨ha2, hb2, hc2⟩ := visitSelectionList_counts n vars sels
    refine ⟨?_, ?_, ?_⟩
    · simp [visitSelection, countRefsSelection, addPair, ha, ha2]
    · intro h
      simp [visitSelection, countRefsSelection, addPair, hb h, hb2 h]
    · intro h
      simp [visitSelection, countRefsSelection, hc h, hc2 h]

theorem visitArgumentList_counts (n : String) (vars : VarMap) :
    ∀ (args : List Argument),
    (countRefsArgs n (visitArgumentList vars args)).2 = (countRefsArgs n args).2
    ∧ (vars.lookup n ≠ none → (countRefsArgs n (visitArgumentList vars args)).1 = 0)
    ∧ (vars.lookup n = none →
        countRefsArgs n (visitArgumentList vars args) = countRefsArgs n args)
  | [] => ⟨rfl, fun _ => rfl, fun _ => rfl⟩
  | a :: rest => by
    obtain ⟨ha, hb, hc⟩ := visitValue_counts n vars true a.value
    obtain ⟨ha2, hb2, hc2⟩ := visitArgumentList_counts n vars rest
    refine ⟨?_, ?_, ?_⟩
    · simp [visitArgumentList, countRefsArgs, addPair, ha, ha2]
    · intro h
      simp [visitArgumentList, countRefsArgs, addPair, hb h, hb2 h]
    · intro h
      simp [visitArgumentList, countRefsArgs, hc h, hc2 h]

theorem visitSelectionList_counts (n : String) (vars : VarMap) :
    ∀ (sels : List Selection),
    (countRefsSelections n (visitSelectionList vars sels)).2
        = (countRefsSelections n sels).2
    ∧ (vars.lookup n ≠ none →
        (countRefsSelections n (visitSelectionList vars sels)).1 = 0)
    ∧ (vars.lookup n = none →
        countRefsSelections n (visitSelectionList vars sels) = countRefsSelections n sels)
  | [] => ⟨rfl, fun _ => rfl, fun _ => rfl⟩
  | s :: rest => by
    obtain ⟨ha, hb, hc⟩ := visitSelection_counts n vars s
    obtain ⟨ha2, hb2, hc2⟩ := visitSelectionList_counts n vars rest
    refine ⟨?_, ?_, ?_⟩
    · simp [visitSelectionList, countRefsSelections, addPair, ha, ha2]
    · intro h
      simp [visitSelectionList, countRefsSelections, addPair, hb h, hb2 h]
    · intro h
      simp [visitSelectionList, countRefsSelections, hc h, hc2 h]

end

theorem replaceVariablesDoc_counts (n : String) (vars : VarMap) (d : DocumentNode) :
    (countRefsDoc n (replaceVariablesDoc vars d)).2 = (countRefsDoc n d).2
    ∧ (vars.lookup n ≠ none → (countRefsDoc n (replaceVariablesDoc vars d)).1 = 0)
    ∧ (vars.lookup n = none →
        countRefsDoc n (replaceVariablesDoc vars d) = countRefsDoc n d) := by
  obtain ⟨defs⟩ := d
  simp only [countRefsDoc, replaceVariablesDoc]
  induction defs with
  | nil => exact ⟨rfl, fun _ => rfl, fun _ => rfl⟩
  | cons op rest ih =>
    obtain ⟨ha, hb, hc⟩ := visitSelectionList_counts n vars op.selections
    obtain ⟨ha2, hb2, hc2⟩ := ih
    refine ⟨?_, ?_, ?_⟩
    · simp [countRefsOps, addPair, ha]
      omega
    · intro h
      simp [countRefsOps, addPair, hb h, hb2 h]
    · intro h
      simp only [countRefsOps, List.map_cons, hc h]
      rw [hc2 h]

/-! ### Structure of the orchestrators -/

theorem finishExport_pending (e : Bool) (k : String) (w : World) (dir : CacheDir)
    (evs : List Event) :
    finishExport e k w dir .pending evs = ⟨.pending, dir, evs⟩ := rfl

theorem finishExport_fatal (e : Bool) (k : String) (w : World) (dir : CacheDir)
    (f : FatalReason) (evs : List Event) :
    finishExport e k w dir (.fatal f) evs = ⟨.error (.pollFatal f), dir, evs⟩ := rfl

theorem finishExport_noUrl (e : Bool) (k : String) (w : World) (dir : CacheDir)
    (evs : List Event) :
    finishExport e k w dir (.finished none) evs = ⟨.ok (.arr []), dir, evs⟩ := rfl

theorem finishExport_emptyUrl (e : Bool) (k : String) (w : World) (dir : CacheDir)
    (evs : List Event) :
    finishExport e k w dir (.finished (some "")) evs = ⟨.ok (.arr []), dir, evs⟩ := by
  simp [finishExport]

theorem finishExport_dlError (e : Bool) (k : String) (w : World) (dir : CacheDir)
    (url : String) (evs : List Event) (msg : String) (hurl : url ≠ "")
    (hdl : downloadData w.downloadLines w.downloadFault = .error msg) :
    finishExport e k w dir (.finished (some url)) evs
      = ⟨.error (.streamingError msg), dir, evs ++ [.download url]⟩ := by
  simp [finishExport, hurl, hdl]

theorem finishExport_dlOk (e : Bool) (k : String) (w : World) (dir : CacheDir)
    (url : String) (evs : List Event) (nodes : List Json) (hurl : url ≠ "")
    (hdl : downloadData w.downloadLines w.downloadFault = .ok nodes) :
    finishExport e k w dir (.finished (some url)) evs
      = ⟨.ok (.arr nodes), (cachePut e k (.arr nodes) dir).1,
         evs ++ [.download url] ++ (cachePut e k (.arr nodes) dir).2⟩ := by
  simp [finishExport, hurl, hdl]

theorem finishExport_put (e : Bool) (k : String) (w : World) (dir : CacheDir)
    (po : PollResult) (evs : List Event)
    (hpre : Event.cachePut ∉ evs)
    (h : Event.cachePut ∈ (finishExport e k w dir po evs).events) :
    ∃ url nodes, po = .finished (some url) ∧ url ≠ ""
      ∧ downloadData w.downloadLines w.downloadFault = .ok nodes
      ∧ e = true
      ∧ finishExport e k w dir po evs
          = ⟨.ok (.arr nodes), (k, jsonStringify (.arr nodes)) :: dir,
             evs ++ [.download url, .cachePut]⟩ := by
  cases po with
  | pending => rw [finishExport_pending] at h; exact absurd h hpre
  | fatal f => rw [finishExport_fatal] at h; exact absurd h hpre
  | finished u =>
    cases u with
    | none => rw [finishExport_noUrl] at h; exact absurd h hpre
    | some url =>
      by_cases hurl : url = ""
      · subst hurl
        rw [finishExport_emptyUrl] at h
        exact absurd h hpre
      · cases hdl : downloadData w.downloadLines w.downloadFault with
        | error m =>
          rw [finishExport_dlError e k w dir url evs m hurl hdl] at h
          rcases List.mem_append.mp h with h | h
          · exact absurd h hpre
          · simp at h
        | ok nodes =>
          cases e with
          | false =>
            rw [finishExport_dlOk false k w dir url evs nodes hurl hdl] at h
            simp only [cachePut, if_neg (by simp : ¬ False = True)] at h
            rcases List.mem_append.mp h with h | h
            · rcases List.mem_append.mp h with h | h
              · exact absurd h hpre
              · simp at h
            · simp at h
          | true =>
            refine ⟨url, nodes, rfl, hurl, rfl, rfl, ?_⟩
            rw [finishExport_dlOk true k w dir url evs nodes hurl hdl]
            simp [cachePut]

theorem finishExport_tail (e : Bool) (k : String) (w : World) (dir : CacheDir)
    (po : PollResult) (evs : List Event) :
    ∃ tail, (finishExport e k w dir po evs).events = evs ++ tail
      ∧ ∀ ev ∈ tail, ev = Event.cachePut ∨ ∃ u, ev = Event.download u := by
  cases po with
  | pending => exact ⟨[], by simp [finishExport_pending], by simp⟩
  | fatal f => exact ⟨[], by simp [finishExport_fatal], by simp⟩
  | finished u =>
    cases u with
    | none => exact ⟨[], by simp [finishExport_noUrl], by simp⟩
    | some url =>
      by_cases hurl : url = ""
      · subst hurl
        exact ⟨[], by simp [finishExport_emptyUrl], by simp⟩
      · cases hdl : downloadData w.downloadLines w.downloadFault with
        | error m =>
          refine ⟨[.download url], by simp [finishExport_dlError e k w dir url evs m hurl hdl], ?_⟩
          intro ev hev
          simp only [List.mem_singleton] at hev
          subst hev
          exact Or.inr ⟨url, rfl⟩
        | ok nodes =>
          cases e with
          | false =>
            refine ⟨[.download url], ?_, ?_⟩
            · rw [finishExport_dlOk false k w dir url evs nodes hurl hdl]
              simp [cachePut]
            · intro ev hev
              simp only [List.mem_singleton] at hev
              subst hev
              exact Or.inr ⟨url, rfl⟩
          | true =>
            refine ⟨[.download url, .cachePut], ?_, ?_⟩
            · rw [finishExport_dlOk true k w dir url evs nodes hurl hdl]
              simp [cachePut]
            · intro ev hev
              rcases List.mem_cons.mp hev with rfl | hev
              · exact Or.inr ⟨url, rfl⟩
              · simp only [List.mem_singleton] at hev
                subst hev
                exact Or.inl rfl

theorem runMissPipeline_submitError (input : BaseInput) (w : World) (dir : CacheDir)
    (e : Bool) (k : String) (evs : List Event) (msg : String)
    (h : startBulkQuery w.submitResponse = .error msg) :
    runMissPipeline input w dir e k evs
      = ⟨.error (.submitError msg), dir, evs ++ [.format, .submit]⟩ := by
  simp [runMissPipeline, h]

theorem runMissPipeline_submitOk (input : BaseInput) (w : World) (dir : CacheDir)
    (e : Bool) (k : String) (evs : List Event) (opId : String)
    (h : startBulkQuery w.submitResponse = .ok opId) :
    runMissPipeline input w dir e k evs
      = finishExport e k w dir (waitForQuery input.interval w.statusScript).1
          (evs ++ [.format, .submit] ++ (waitForQuery input.interval w.statusScript).2) := by
  simp [runMissPipeline, h]

theorem resumeMissPipeline_eq (input : ResumeInput) (w : World) (dir : CacheDir)
    (e : Bool) (k : String) (evs : List Event) :
    resumeMissPipeline input w dir e k evs
      = finishExport e k w dir (waitForQuery input.interval w.statusScript).1
          (evs ++ (waitForQuery input.interval w.statusScript).2) := rfl

theorem cacheGet_cases (enabled : Bool) (dir : CacheDir) (key : String) :
    (enabled = false ∧ cacheGet enabled dir key = (.ok none, []))
    ∨ (enabled = true ∧ cacheGet enabled dir key = (.ok none, [.cacheGetMiss]))
    ∨ (∃ v, enabled = true ∧ cacheGet enabled dir key = (.ok (some v), [.cacheGetHit]))
    ∨ (∃ m, enabled = true ∧ cacheGet enabled dir key = (.error m, [.cacheGetHit])) := by
  cases enabled with
  | false => exact Or.inl ⟨rfl, by simp [cacheGet]⟩
  | true =>
    cases hlook : dir.lookup key with
    | none => exact Or.inr (Or.inl ⟨rfl, by simp [cacheGet, hlook]⟩)
    | some blob =>
      cases hparse : jsonParse blob with
      | some v =>
        exact Or.inr (Or.inr (Or.inl ⟨v, rfl, by simp [cacheGet, hlook, hparse]⟩))
      | none =>
        exact Or.inr (Or.inr (Or.inr
          ⟨"cache entry is not valid JSON", rfl, by simp [cacheGet, hlook, hparse]⟩))

theorem runBulkExport_invalid (input : BaseInput) (w : World) (dir : CacheDir)
    (msg : String) (h : validateRun input = some msg) :
    runBulkExport input w dir = ⟨.error (.inputValidation msg), dir, []⟩ := by
  simp [runBulkExport, h]

theorem runBulkExport_getError (input : BaseInput) (w : World) (dir : CacheDir)
    (msg : String) (gevs : List Event) (hval : validateRun input = none)
    (hget : cacheGet (cacheEnabled input.cache) dir (createHash input) = (.error msg, gevs)) :
    runBulkExport input w dir
      = ⟨.error (.cacheError msg), dir,
         (if cacheEnabled input.cache then [Event.cacheInit] else []) ++ gevs⟩ := by
  simp [runBulkExport, hval, hget]

theorem runBulkExport_hit (input : BaseInput) (w : World) (dir : CacheDir)
    (v : Json) (gevs : List Event) (hval : validateRun input = none)
    (hget : cacheGet (cacheEnabled input.cache) dir (createHash input) = (.ok (some v), gevs))
    (htr : jsTruthyJson v = true) :
    runBulkExport input w dir
      = ⟨.ok v, dir, (if cacheEnabled input.cache then [Event.cacheInit] else []) ++ gevs⟩ := by
  simp [runBulkExport, hval, hget, htr]

theorem runBulkExport_missNone (input : BaseInput) (w : World) (dir : CacheDir)
    (gevs : List Event) (hval : validateRun input = none)
    (hget : cacheGet (cacheEnabled input.cache) dir (createHash input) = (.ok none, gevs)) :
    runBulkExport input w dir
      = runMissPipeline input w dir (cacheEnabled input.cache) (createHash input)
          ((if cacheEnabled input.cache then [Event.cacheInit] else []) ++ gevs) := by
  simp [runBulkExport, hval, hget]

theorem runBulkExport_missFalsy (input : BaseInput) (w : World) (dir : CacheDir)
    (v : Json) (gevs : List Event) (hval : validateRun input = none)
    (hget : cacheGet (cacheEnabled input.cache) dir (createHash input) = (.ok (some v), gevs))
    (htr : jsTruthyJson v = false) :
    runBulkExport input w dir
      = runMissPipeline input w dir (cacheEnabled input.cache) (createHash input)
          ((if cacheEnabled input.cache then [Event.cacheInit] else []) ++ gevs) := by
  simp [runBulkExport, hval, hget, htr]

theorem resumeBulkExport_invalid (input : ResumeInput) (w : World) (dir : CacheDir)
    (msg : String) (h : validateResume input = some msg) :
    resumeBulkExport input w dir = ⟨.error (.inputValidation msg), dir, []⟩ := by
  simp [resumeBulkExport, h]

theorem resumeBulkExport_getError (input : ResumeInput) (w : World) (dir : CacheDir)
    (msg : String) (gevs : List Event) (hval : validateResume input = none)
    (hget : cacheGet (cacheEnabled input.cache) dir (createHash input.toBaseInput)
      = (.error msg, gevs)) :
    resumeBulkExport input w dir
      = ⟨.error (.cacheError msg), dir,
         (if cacheEnabled input.cache then [Event.cacheInit] else []) ++ gevs⟩ := by
  simp [resumeBulkExport, hval, hget]

theorem resumeBulkExport_hit (input : ResumeInput) (w : World) (dir : CacheDir)
    (v : Json) (gevs : List Event) (hval : validateResume input = none)
    (hget : cacheGet (cacheEnabled input.cache) dir (createHash input.toBaseInput)
      = (.ok (some v), gevs))
    (htr : jsTruthyJson v = true) :
    resumeBulkExport input w dir
      = ⟨.ok v, dir, (if cacheEnabled input.cache then [Event.cacheInit] else []) ++ gevs⟩ := by
  simp [resumeBulkExport, hval, hget, htr]

theorem resumeBulkExport_missNone (input : ResumeInput) (w : World) (dir : CacheDir)
    (gevs : List Event) (hval : validateResume input = none)
    (hget : cacheGet (cacheEnabled input.cache) dir (createHash input.toBaseInput)
      = (.ok none, gevs)) :
    resumeBulkExport input w dir
      = resumeMissPipeline input w dir (cacheEnabled input.cache)
          (createHash input.toBaseInput)
          ((if cacheEnabled input.cache then [Event.cacheInit] else []) ++ gevs) := by
  simp [resumeBulkExport, hval, hget]

theorem resumeBulkExport_missFalsy (input : ResumeInput) (w : World) (dir : CacheDir)
    (v : Json) (gevs : List Event) (hval : validateResume input = none)
    (hget : cacheGet (cacheEnabled input.cache) dir (createHash input.toBaseInput)
      = (.ok (some v), gevs))
    (htr : jsTruthyJson v = false) :
    resumeBulkExport input w dir
      = resumeMissPipeline input w dir (cacheEnabled input.cache)
          (createHash input.toBaseInput)
          ((if cacheEnabled input.cache then [Event.cacheInit] else []) ++ gevs) := by
  simp [resumeBulkExport, hval, hget, htr]

/-! ### The poll loop -/

theorem pollLoop_fatal_head (i : Nat) (r : StatusResponse) (rest : List StatusResponse)
    (f : FatalReason) (h : classifyTick r = .fatal f) :
    pollLoop i (r :: rest) = (.fatal f, [.poll]) := by
  simp [pollLoop, h]

theorem pollLoop_empty_head (i : Nat) (r : StatusResponse) (rest : List StatusResponse)
    (h : classifyTick r = .emptyResult) :
    pollLoop i (r :: rest) = (.finished none, [.poll]) := by
  simp [pollLoop, h]

theorem pollLoop_success_head (i : Nat) (r : StatusResponse) (rest : List StatusResponse)
    (u : Option String) (h : classifyTick r = .success u) :
    pollLoop i (r :: rest) = (.finished u, [.poll]) := by
  simp [pollLoop, h]

theorem pollLoop_continue_head (i : Nat) (r : StatusResponse) (rest : List StatusResponse)
    (h : classifyTick r = .continueOp) :
    pollLoop i (r :: rest)
      = ((pollLoop i rest).1, .poll :: .wait i :: (pollLoop i rest).2) := by
  simp [pollLoop, h]

theorem pollLoop_continue_run (i : Nat) (pre tail : List StatusResponse)
    (hpre : ∀ x ∈ pre, classifyTick x = .continueOp) :
    pollLoop i (pre ++ tail)
      = ((pollLoop i tail).1, pollWaits i pre.length ++ (pollLoop i tail).2) := by
  induction pre with
  | nil => simp [pollWaits]
  | cons r rest ih =>
    have hr := hpre r (by simp)
    rw [List.cons_append, pollLoop_continue_head i r (rest ++ tail) hr,
      ih fun x hx => hpre x (by simp [hx])]
    simp [pollWaits]

theorem pollLoop_events (i : Nat) (script : List StatusResponse) :
    ∀ ev ∈ (pollLoop i script).2, ev = .poll ∨ ev = .wait i := by
  induction script with
  | nil => simp [pollLoop]
  | cons r rest ih =>
    intro ev hev
    rw [pollLoop] at hev
    rcases hcl : classifyTick r with _ | _ | u | f <;> rw [hcl] at hev
    · simp only [List.mem_cons] at hev
      rcases hev with rfl | hev
      · exact Or.inl rfl
      rcases hev with rfl | hev
      · exact Or.inr rfl
      · exact ih ev hev
    · simp only [List.mem_singleton] at hev
      exact Or.inl hev
    · simp only [List.mem_singleton] at hev
      exact Or.inl hev
    · simp only [List.mem_singleton] at hev
      exact Or.inl hev

/-! ### Trace ordering helpers -/

theorem lpn_no_network (b : List Event) (hb : ∀ e ∈ b, e.isNetwork = false) :
    lookupsPrecedeNetwork b = true := by
  unfold lookupsPrecedeNetwork
  have : b.dropWhile (fun e => !e.isNetwork) = [] := by
    rw [List.dropWhile_eq_nil_iff]
    intro x hx
    simp [hb x hx]
  rw [this]
  rfl

theorem lpn_append (a b : List Event)
    (ha : ∀ e ∈ a, e.isNetwork = false) (hb : ∀ e ∈ b, e.isCacheLookup = false) :
    lookupsPrecedeNetwork (a ++ b) = true := by
  induction a with
  | nil =>
    unfold lookupsPrecedeNetwork
    rw [List.nil_append, List.all_eq_true]
    intro e he
    have hmem : e ∈ b := (List.dropWhile_sublist _).subset he
    simp [hb e hmem]
  | cons x t ih =>
    unfold lookupsPrecedeNetwork at ih ⊢
    rw [List.cons_append, List.dropWhile_cons]
    simp only [ha x (by simp), Bool.not_false, if_true]
    exact ih fun e he => ha e (by simp [he])

theorem runMissPipeline_tail (input : BaseInput) (w : World) (dir : CacheDir)
    (e : Bool) (k : String) (pre : List Event) :
    ∃ tail, (runMissPipeline input w dir e k pre).events = pre ++ tail
      ∧ ∀ ev ∈ tail, ev = Event.format ∨ ev = Event.submit ∨ ev = Event.poll
        ∨ (∃ m, ev = Event.wait m) ∨ (∃ u, ev = Event.download u)
        ∨ ev = Event.cachePut := by
  cases hsub : startBulkQuery w.submitResponse with
  | error msg =>
    rw [runMissPipeline_submitError input w dir e k pre msg hsub]
    refine ⟨[.format, .submit], rfl, ?_⟩
    intro ev hev
    rcases List.mem_cons.mp hev with rfl | hev
    · exact Or.inl rfl
    · simp only [List.mem_singleton] at hev
      subst hev
      exact Or.inr (Or.inl rfl)
  | ok opId =>
    rw [runMissPipeline_submitOk input w dir e k pre opId hsub]
    obtain ⟨tail2, ht2, hall⟩ := finishExport_tail e k w dir
      (waitForQuery input.interval w.statusScript).1
      (pre ++ [.format, .submit] ++ (waitForQuery input.interval w.statusScript).2)
    refine ⟨([.format, .submit] ++ (waitForQuery input.interval w.statusScript).2) ++ tail2, ?_, ?_⟩
    · rw [ht2]
      simp [List.append_assoc]
    · intro ev hev
      rcases List.mem_append.mp hev with hev | hev
      · rcases List.mem_append.mp hev with hev | hev
        · rcases List.mem_cons.mp hev with rfl | hev
          · exact Or.inl rfl
          · simp only [List.mem_singleton] at hev
            subst hev
            exact Or.inr (Or.inl rfl)
        · simp only [waitForQuery] at hev
          rcases pollLoop_events _ _ ev hev with rfl | rfl
          · exact Or.inr (Or.inr (Or.inl rfl))
          · exact Or.inr (Or.inr (Or.inr (Or.inl ⟨_, rfl⟩)))
      · rcases hall ev hev with rfl | ⟨u, rfl⟩
        · exact Or.inr (Or.inr (Or.inr (Or.inr (Or.inr rfl))))
        · exact Or.inr (Or.inr (Or.inr (Or.inr (Or.inl ⟨u, rfl⟩))))

theorem resumeMissPipeline_tail (input : ResumeInput) (w : World) (dir : CacheDir)
    (e : Bool) (k : String) (pre : List Event) :
    ∃ tail, (resumeMissPipeline input w dir e k pre).events = pre ++ tail
      ∧ ∀ ev ∈ tail, ev = Event.poll ∨ (∃ m, ev = Event.wait m)
        ∨ (∃ u, ev = Event.download u) ∨ ev = Event.cachePut := by
  rw [resumeMissPipeline_eq]
  obtain ⟨tail2, ht2, hall⟩ := finishExport_tail e k w dir
    (waitForQuery input.interval w.statusScript).1
    (pre ++ (waitForQuery input.interval w.statusScript).2)
  refine ⟨(waitForQuery input.interval w.statusScript).2 ++ tail2, ?_, ?_⟩
  · rw [ht2]
    simp [List.append_assoc]
  · intro ev hev
    rcases List.mem_append.mp hev with hev | hev
    · simp only [waitForQuery] at hev
      rcases pollLoop_events _ _ ev hev with rfl | rfl
      · exact Or.inl rfl
      · exact Or.inr (Or.inl ⟨_, rfl⟩)
    · rcases hall ev hev with rfl | ⟨u, rfl⟩
      · exact Or.inr (Or.inr (Or.inr rfl))
      · exact Or.inr (Or.inr (Or.inl ⟨u, rfl⟩))

theorem missPipeline_put (input : BaseInput) (w : World) (dir : CacheDir)
    (e : Bool) (k : String) (pre : List Event)
    (hpre : Event.cachePut ∉ pre)
    (h : Event.cachePut ∈ (runMissPipeline input w dir e k pre).events) :
    e = true ∧ ∃ url nodes,
      (waitForQuery input.interval w.statusScript).1 = .finished (some url)
      ∧ url ≠ "" ∧ downloadData w.downloadLines w.downloadFault = .ok nodes
      ∧ runMissPipeline input w dir e k pre
          = ⟨.ok (.arr nodes), (k, jsonStringify (.arr nodes)) :: dir,
             (pre ++ [.format, .submit] ++ (waitForQuery input.interval w.statusScript).2)
               ++ [.download url, .cachePut]⟩ := by
  cases hsub : startBulkQuery w.submitResponse with
  | error msg =>
    rw [runMissPipeline_submitError input w dir e k pre msg hsub] at h
    rcases List.mem_append.mp h with h | h
    · exact absurd h hpre
    · simp at h
  | ok opId =>
    rw [runMissPipeline_submitOk input w dir e k pre opId hsub] at h ⊢
    have hpre2 : Event.cachePut
        ∉ pre ++ [.format, .submit] ++ (waitForQuery input.interval w.statusScript).2 := by
      intro hmem
      rcases List.mem_append.mp hmem with hmem | hmem
      · rcases List.mem_append.mp hmem with hmem | hmem
        · exact hpre hmem
        · simp at hmem
      · simp only [waitForQuery] at hmem
        rcases pollLoop_events _ _ _ hmem with heq | heq <;> simp at heq
    obtain ⟨url, nodes, hpo, hurl, hdl, he, heq⟩ := finishExport_put e k w dir _ _ hpre2 h
    exact ⟨he, url, nodes, hpo, hurl, hdl, heq⟩

theorem resumePipeline_put (input : ResumeInput) (w : World) (dir : CacheDir)
    (e : Bool) (k : String) (pre : List Event)
    (hpre : Event.cachePut ∉ pre)
    (h : Event.cachePut ∈ (resumeMissPipeline input w dir e k pre).events) :
    e = true ∧ ∃ url nodes,
      (waitForQuery input.interval w.statusScript).1 = .finished (some url)
      ∧ url ≠ "" ∧ downloadData w.downloadLines w.downloadFault = .ok nodes
      ∧ resumeMissPipeline input w dir e k pre
          = ⟨.ok (.arr nodes), (k, jsonStringify (.arr nodes)) :: dir,
             (pre ++ (waitForQuery input.interval w.statusScript).2)
               ++ [.download url, .cachePut]⟩ := by
  rw [resumeMissPipeline_eq] at h ⊢
  have hpre2 : Event.cachePut
      ∉ pre ++ (waitForQuery input.interval w.statusScript).2 := by
    intro hmem
    rcases List.mem_append.mp hmem with hmem | hmem
    · exact hpre hmem
    · simp only [waitForQuery] at hmem
      rcases pollLoop_events _ _ _ hmem with heq | heq <;> simp at heq
  obtain ⟨url, nodes, hpo, hurl, hdl, he, heq⟩ := finishExport_put e k w dir _ _ hpre2 h
  exact ⟨he, url, nodes, hpo, hurl, hdl, heq⟩

theorem initGet_no_network (b : Bool) (gevs : List Event)
    (hg : gevs = [] ∨ gevs = [Event.cacheGetMiss] ∨ gevs = [Event.cacheGetHit]) :
    ∀ e ∈ (if b then [Event.cacheInit] else []) ++ gevs, e.isNetwork = false := by
  intro e he
  rcases List.mem_append.mp he with he | he
  · cases b with
    | true =>
      simp only [if_true, List.mem_singleton] at he
      subst he
      rfl
    | false => simp at he
  · rcases hg with rfl | rfl | rfl
    · simp at he
    · simp only [List.mem_singleton] at he
      subst he
      rfl
    · simp only [List.mem_singleton] at he
      subst he
      rfl

theorem initGet_no_put (b : Bool) (gevs : List Event)
    (hg : gevs = [] ∨ gevs = [Event.cacheGetMiss] ∨ gevs = [Event.cacheGetHit]) :
    Event.cachePut ∉ (if b then [Event.cacheInit] else []) ++ gevs := by
  intro h
  rcases List.mem_append.mp h with h | h
  · cases b with
    | true => simp at h
    | false => simp at h
  · rcases hg with rfl | rfl | rfl <;> simp at h

theorem run_lookups_precede (input : BaseInput) (w : World) (dir : CacheDir) :
    lookupsPrecedeNetwork (runBulkExport input w dir).events = true := by
  cases hval : validateRun input with
  | some msg =>
    rw [runBulkExport_invalid input w dir msg hval]
    rfl
  | none =>
    rcases cacheGet_cases (cacheEnabled input.cache) dir (createHash input) with
      ⟨he, hget⟩ | ⟨he, hget⟩ | ⟨v, he, hget⟩ | ⟨m, he, hget⟩
    · rw [runBulkExport_missNone input w dir [] hval hget]
      obtain ⟨tail, ht, hall⟩ := runMissPipeline_tail input w dir
        (cacheEnabled input.cache) (createHash input)
        ((if cacheEnabled input.cache then [Event.cacheInit] else []) ++ [])
      rw [ht]
      refine lpn_append _ _ (initGet_no_network _ _ (Or.inl rfl)) ?_
      intro e hee
      rcases hall e hee with rfl | rfl | rfl | ⟨m, rfl⟩ | ⟨u, rfl⟩ | rfl <;> rfl
    · rw [runBulkExport_missNone input w dir [Event.cacheGetMiss] hval hget]
      obtain ⟨tail, ht, hall⟩ := runMissPipeline_tail input w dir
        (cacheEnabled input.cache) (createHash input)
        ((if cacheEnabled input.cache then [Event.cacheInit] else []) ++ [Event.cacheGetMiss])
      rw [ht]
      refine lpn_append _ _ (initGet_no_network _ _ (Or.inr (Or.inl rfl))) ?_
      intro e hee
      rcases hall e hee with rfl | rfl | rfl | ⟨m, rfl⟩ | ⟨u, rfl⟩ | rfl <;> rfl
    · by_cases htr : jsTruthyJson v = true
      · rw [runBulkExport_hit input w dir v [Event.cacheGetHit] hval hget htr]
        exact lpn_no_network _ (initGet_no_network _ _ (Or.inr (Or.inr rfl)))
      · rw [runBulkExport_missFalsy input w dir v [Event.cacheGetHit] hval hget
          (by simpa using htr)]
        obtain ⟨tail, ht, hall⟩ := runMissPipeline_tail input w dir
          (cacheEnabled input.cache) (createHash input)
          ((if cacheEnabled input.cache then [Event.cacheInit] else []) ++ [Event.cacheGetHit])
        rw [ht]
        refine lpn_append _ _ (initGet_no_network _ _ (Or.inr (Or.inr rfl))) ?_
        intro e hee
        rcases hall e hee with rfl | rfl | rfl | ⟨m, rfl⟩ | ⟨u, rfl⟩ | rfl <;> rfl
    · rw [runBulkExport_getError input w dir m [Event.cacheGetHit] hval hget]
      exact lpn_no_network _ (initGet_no_network _ _ (Or.inr (Or.inr rfl)))

theorem resume_lookups_precede (input : ResumeInput) (w : World) (dir : CacheDir) :
    lookupsPrecedeNetwork (resumeBulkExport input w dir).events = true := by
  cases hval : validateResume input with
  | some msg =>
    rw [resumeBulkExport_invalid input w dir msg hval]
    rfl
  | none =>
    rcases cacheGet_cases (cacheEnabled input.cache) dir (createHash input.toBaseInput) with
      ⟨he, hget⟩ | ⟨he, hget⟩ | ⟨v, he, hget⟩ | ⟨m, he, hget⟩
    · rw [resumeBulkExport_missNone input w dir [] hval hget]
      obtain ⟨tail, ht, hall⟩ := resumeMissPipeline_tail input w dir
        (cacheEnabled input.cache) (createHash input.toBaseInput)
        ((if cacheEnabled input.cache then [Event.cacheInit] else []) ++ [])
      rw [ht]
      refine lpn_append _ _ (initGet_no_network _ _ (Or.inl rfl)) ?_
      intro e hee
      rcases hall e hee with rfl | ⟨m, rfl⟩ | ⟨u, rfl⟩ | rfl <;> rfl
    · rw [resumeBulkExport_missNone input w dir [Event.cacheGetMiss] hval hget]
      obtain ⟨tail, ht, hall⟩ := resumeMissPipeline_tail input w dir
        (cacheEnabled input.cache) (createHash input.toBaseInput)
        ((if cacheEnabled input.cache then [Event.cacheInit] else []) ++ [Event.cacheGetMiss])
      rw [ht]
      refine lpn_append _ _ (initGet_no_network _ _ (Or.inr (Or.inl rfl))) ?_
      intro e hee
      rcases hall e hee with rfl | ⟨m, rfl⟩ | ⟨u, rfl⟩ | rfl <;> rfl
    · by_cases htr : jsTruthyJson v = true
      · rw [resumeBulkExport_hit input w dir v [Event.cacheGetHit] hval hget htr]
        exact lpn_no_network _ (initGet_no_network _ _ (Or.inr (Or.inr rfl)))
      · rw [resumeBulkExport_missFalsy input w dir v [Event.cacheGetHit] hval hget
          (by simpa using htr)]
        obtain ⟨tail, ht, hall⟩ := resumeMissPipeline_tail input w dir
          (cacheEnabled input.cache) (createHash input.toBaseInput)
          ((if cacheEnabled input.cache then [Event.cacheInit] else []) ++ [Event.cacheGetHit])
        rw [ht]
        refine lpn_append _ _ (initGet_no_network _ _ (Or.inr (Or.inr rfl))) ?_
        intro e hee
        rcases hall e hee with rfl | ⟨m, rfl⟩ | ⟨u, rfl⟩ | rfl <;> rfl
    · rw [resumeBulkExport_getError input w dir m [Event.cacheGetHit] hval hget]
      exact lpn_no_network _ (initGet_no_network _ _ (Or.inr (Or.inr rfl)))

theorem run_put_inversion (input : BaseInput) (w : World) (dir : CacheDir)
    (h : Event.cachePut ∈ (runBulkExport input w dir).events) :
    cacheEnabled input.cache = true
    ∧ validateRun input = none
    ∧ ∃ url nodes,
        (waitForQuery input.interval w.statusScript).1 = .finished (some url)
        ∧ url ≠ ""
        ∧ downloadData w.downloadLines w.downloadFault = .ok nodes
        ∧ (runBulkExport input w dir).outcome = .ok (.arr nodes)
        ∧ Event.download url ∈ (runBulkExport input w dir).events
        ∧ (runBulkExport input w dir).cacheDir
            = (createHash input, jsonStringify (.arr nodes)) :: dir := by
  cases hval : validateRun input with
  | some msg =>
    rw [runBulkExport_invalid input w dir msg hval] at h
    simp at h
  | none =>
    rcases cacheGet_cases (cacheEnabled input.cache) dir (createHash input) with
      ⟨he, hget⟩ | ⟨he, hget⟩ | ⟨v, he, hget⟩ | ⟨m, he, hget⟩
    · rw [runBulkExport_missNone input w dir [] hval hget] at h
      obtain ⟨hen, url, nodes, hpo, hurl, hdl, heq⟩ := missPipeline_put input w dir
        (cacheEnabled input.cache) (createHash input) _
        (initGet_no_put _ _ (Or.inl rfl)) h
      rw [runBulkExport_missNone input w dir [] hval hget, heq]
      exact ⟨hen, rfl, url, nodes, hpo, hurl, hdl, rfl, by simp, rfl⟩
    · rw [runBulkExport_missNone input w dir [Event.cacheGetMiss] hval hget] at h
      obtain ⟨hen, url, nodes, hpo, hurl, hdl, heq⟩ := missPipeline_put input w dir
        (cacheEnabled input.cache) (createHash input) _
        (initGet_no_put _ _ (Or.inr (Or.inl rfl))) h
      rw [runBulkExport_missNone input w dir [Event.cacheGetMiss] hval hget, heq]
      exact ⟨hen, rfl, url, nodes, hpo, hurl, hdl, rfl, by simp, rfl⟩
    · by_cases htr : jsTruthyJson v = true
      · rw [runBulkExport_hit input w dir v [Event.cacheGetHit] hval hget htr] at h
        exact absurd h (initGet_no_put _ _ (Or.inr (Or.inr rfl)))
      · rw [runBulkExport_missFalsy input w dir v [Event.cacheGetHit] hval hget
          (by simpa using htr)] at h
        obtain ⟨hen, url, nodes, hpo, hurl, hdl, heq⟩ := missPipeline_put input w dir
          (cacheEnabled input.cache) (createHash input) _
          (initGet_no_put _ _ (Or.inr (Or.inr rfl))) h
        rw [runBulkExport_missFalsy input w dir v [Event.cacheGetHit] hval hget
          (by simpa using htr), heq]
        exact ⟨hen, rfl, url, nodes, hpo, hurl, hdl, rfl, by simp, rfl⟩
    · rw [runBulkExport_getError input w dir m [Event.cacheGetHit] hval hget] at h
      exact absurd h (initGet_no_put _ _ (Or.inr (Or.inr rfl)))

theorem resume_put_inversion (input : ResumeInput) (w : World) (dir : CacheDir)
    (h : Event.cachePut ∈ (resumeBulkExport input w dir).events) :
    cacheEnabled input.cache = true
    ∧ validateResume input = none
    ∧ ∃ url nodes,
        (waitForQuery input.interval w.statusScript).1 = .finished (some url)
        ∧ url ≠ ""
        ∧ downloadData w.downloadLines w.downloadFault = .ok nodes
        ∧ (resumeBulkExport input w dir).outcome = .ok (.arr nodes)
        ∧ Event.download url ∈ (resumeBulkExport input w dir).events
        ∧ (resumeBulkExport input w dir).cacheDir
            = (createHash input.toBaseInput, jsonStringify (.arr nodes)) :: dir := by
  cases hval : validateResume input with
  | some msg =>
    rw [resumeBulkExport_invalid input w dir msg hval] at h
    simp at h
  | none =>
    rcases cacheGet_cases (cacheEnabled input.cache) dir (createHash input.toBaseInput) with
      ⟨he, hget⟩ | ⟨he, hget⟩ | ⟨v, he, hget⟩ | ⟨m, he, hget⟩
    · rw [resumeBulkExport_missNone input w dir [] hval hget] at h
      obtain ⟨hen, url, nodes, hpo, hurl, hdl, heq⟩ := resumePipeline_put input w dir
        (cacheEnabled input.cache) (createHash input.toBaseInput) _
        (initGet_no_put _ _ (Or.inl rfl)) h
      rw [resumeBulkExport_missNone input w dir [] hval hget, heq]
      exact ⟨hen, rfl, url, nodes, hpo, hurl, hdl, rfl, by simp, rfl⟩
    · rw [resumeBulkExport_missNone input w dir [Event.cacheGetMiss] hval hget] at h
      obtain ⟨hen, url, nodes, hpo, hurl, hdl, heq⟩ := resumePipeline_put input w dir
        (cacheEnabled input.cache) (createHash input.toBaseInput) _
        (initGet_no_put _ _ (Or.inr (Or.inl rfl))) h
      rw [resumeBulkExport_missNone input w dir [Event.cacheGetMiss] hval hget, heq]
      exact ⟨hen, rfl, url, nodes, hpo, hurl, hdl, rfl, by simp, rfl⟩
    · by_cases htr : jsTruthyJson v = true
      · rw [resumeBulkExport_hit input w dir v [Event.cacheGetHit] hval hget htr] at h
        exact absurd h (initGet_no_put _ _ (Or.inr (Or.inr rfl)))
      · rw [resumeBulkExport_missFalsy input w dir v [Event.cacheGetHit] hval hget
          (by simpa using htr)] at h
        obtain ⟨hen, url, nodes, hpo, hurl, hdl, heq⟩ := resumePipeline_put input w dir
          (cacheEnabled input.cache) (createHash input.toBaseInput) _
          (initGet_no_put _ _ (Or.inr (Or.inr rfl))) h
        rw [resumeBulkExport_missFalsy input w dir v [Event.cacheGetHit] hval hget
          (by simpa using htr), heq]
        exact ⟨hen, rfl, url, nodes, hpo, hurl, hdl, rfl, by simp, rfl⟩
    · rw [resumeBulkExport_getError input w dir m [Event.cacheGetHit] hval hget] at h
      exact absurd h (initGet_no_put _ _ (Or.inr (Or.inr rfl)))

theorem initGet_mem (b : Bool) (gevs : List Event)
    (hg : gevs = [] ∨ gevs = [Event.cacheGetMiss] ∨ gevs = [Event.cacheGetHit]) :
    ∀ e ∈ (if b then [Event.cacheInit] else []) ++ gevs,
      e = Event.cacheInit ∨ e = Event.cacheGetMiss ∨ e = Event.cacheGetHit := by
  intro e he
  rcases List.mem_append.mp he with he | he
  · cases b with
    | true =>
      simp only [if_true, List.mem_singleton] at he
      exact Or.inl he
    | false => simp at he
  · rcases hg with rfl | rfl | rfl
    · simp at he
    · simp only [List.mem_singleton] at he
      exact Or.inr (Or.inl he)
    · simp only [List.mem_singleton] at he
      exact Or.inr (Or.inr he)

theorem resume_no_submit_format (input : ResumeInput) (w : World) (dir : CacheDir) :
    Event.submit ∉ (resumeBulkExport input w dir).events
    ∧ Event.format ∉ (resumeBulkExport input w dir).events := by
  have main : ∀ ev ∈ (resumeBulkExport input w dir).events,
      ev ≠ Event.submit ∧ ev ≠ Event.format := by
    intro ev hev
    cases hval : validateResume input with
    | some msg =>
      rw [resumeBulkExport_invalid input w dir msg hval] at hev
      simp at hev
    | none =>
      rcases cacheGet_cases (cacheEnabled input.cache) dir (createHash input.toBaseInput) with
        ⟨he, hget⟩ | ⟨he, hget⟩ | ⟨v, he, hget⟩ | ⟨m, he, hget⟩
      · rw [resumeBulkExport_missNone input w dir [] hval hget] at hev
        obtain ⟨tail, ht, hall⟩ := resumeMissPipeline_tail input w dir
          (cacheEnabled input.cache) (createHash input.toBaseInput)
          ((if cacheEnabled input.cache then [Event.cacheInit] else []) ++ [])
        rw [ht] at hev
        rcases List.mem_append.mp hev with hev | hev
        · rcases initGet_mem _ _ (Or.inl rfl) ev hev with rfl | rfl | rfl
            <;> exact ⟨by simp, by simp⟩
        · rcases hall ev hev with rfl | ⟨mm, rfl⟩ | ⟨u, rfl⟩ | rfl
            <;> exact ⟨by simp, by simp⟩
      · rw [resumeBulkExport_missNone input w dir [Event.cacheGetMiss] hval hget] at hev
        obtain ⟨tail, ht, hall⟩ := resumeMissPipeline_tail input w dir
          (cacheEnabled input.cache) (createHash input.toBaseInput)
          ((if cacheEnabled input.cache then [Event.cacheInit] else []) ++ [Event.cacheGetMiss])
        rw [ht] at hev
        rcases List.mem_append.mp hev with hev | hev
        · rcases initGet_mem _ _ (Or.inr (Or.inl rfl)) ev hev with rfl | rfl | rfl
            <;> exact ⟨by simp, by simp⟩
        · rcases hall ev hev with rfl | ⟨mm, rfl⟩ | ⟨u, rfl⟩ | rfl
            <;> exact ⟨by simp, by simp⟩
      · by_cases htr : jsTruthyJson v = true
        · rw [resumeBulkExport_hit input w dir v [Event.cacheGetHit] hval hget htr] at hev
          rcases initGet_mem _ _ (Or.inr (Or.inr rfl)) ev hev with rfl | rfl | rfl
            <;> exact ⟨by simp, by simp⟩
        · rw [resumeBulkExport_missFalsy input w dir v [Event.cacheGetHit] hval hget
            (by simpa using htr)] at hev
          obtain ⟨tail, ht, hall⟩ := resumeMissPipeline_tail input w dir
            (cacheEnabled input.cache) (createHash input.toBaseInput)
            ((if cacheEnabled input.cache then [Event.cacheInit] else []) ++ [Event.cacheGetHit])
          rw [ht] at hev
          rcases List.mem_append.mp hev with hev | hev
          · rcases initGet_mem _ _ (Or.inr (Or.inr rfl)) ev hev with rfl | rfl | rfl
              <;> exact ⟨by simp, by simp⟩
          · rcases hall ev hev with rfl | ⟨mm, rfl⟩ | ⟨u, rfl⟩ | rfl
              <;> exact ⟨by simp, by simp⟩
      · rw [resumeBulkExport_getError input w dir m [Event.cacheGetHit] hval hget] at hev
        rcases initGet_mem _ _ (Or.inr (Or.inr rfl)) ev hev with rfl | rfl | rfl
          <;> exact ⟨by simp, by simp⟩
  exact ⟨fun h => (main _ h).1 rfl, fun h => (main _ h).2 rfl⟩

theorem pollLoop_head_shape (i : Nat) (r : StatusResponse) (rest : List StatusResponse) :
    ∃ t, (pollLoop i (r :: rest)).2 = Event.poll :: t := by
  rcases hcl : classifyTick r with _ | _ | u | f
  · rw [pollLoop_continue_head i r rest hcl]
    exact ⟨_, rfl⟩
  · rw [pollLoop_empty_head i r rest hcl]
    exact ⟨[], rfl⟩
  · rw [pollLoop_success_head i r rest u hcl]
    exact ⟨[], rfl⟩
  · rw [pollLoop_fatal_head i r rest f hcl]
    exact ⟨[], rfl⟩

theorem resumePipeline_first_network (input : ResumeInput) (w : World) (dir : CacheDir)
    (e : Bool) (k : String) (pre : List Event)
    (hpre : ∀ ev ∈ pre, ev.isNetwork = false) (x : Event)
    (h : (((resumeMissPipeline input w dir e k pre).events.filter Event.isNetwork).head?)
      = some x) :
    x = Event.poll := by
  rw [resumeMissPipeline_eq] at h
  have hfpre : pre.filter Event.isNetwork = [] := by
    rw [List.filter_eq_nil_iff]
    intro a ha
    simp [hpre a ha]
  cases hscript : w.statusScript with
  | nil =>
    rw [hscript] at h
    rw [show waitForQuery input.interval [] = (.pending, []) from rfl] at h
    rw [finishExport_pending] at h
    simp only [List.append_nil, hfpre] at h
    simp at h
  | cons r rest =>
    rw [hscript] at h
    obtain ⟨t, ht⟩ := pollLoop_head_shape (input.interval.getD 20000) r rest
    have hw : (waitForQuery input.interval (r :: rest)).2 = Event.poll :: t := ht
    obtain ⟨tail2, ht2, _⟩ := finishExport_tail e k w dir
      (waitForQuery input.interval (r :: rest)).1
      (pre ++ (waitForQuery input.interval (r :: rest)).2)
    rw [ht2, hw] at h
    rw [List.filter_append, List.filter_append, hfpre] at h
    simp only [List.filter_cons] at h
    simp [Event.isNetwork] at h
    first
    | exact h
    | exact h.symm

theorem resume_first_network (input : ResumeInput) (w : World) (dir : CacheDir) (x : Event)
    (h : (((resumeBulkExport input w dir).events.filter Event.isNetwork).head?) = some x) :
    x = Event.poll := by
  cases hval : validateResume input with
  | some msg =>
    rw [resumeBulkExport_invalid input w dir msg hval] at h
    simp at h
  | none =>
    rcases cacheGet_cases (cacheEnabled input.cache) dir (createHash input.toBaseInput) with
      ⟨he, hget⟩ | ⟨he, hget⟩ | ⟨v, he, hget⟩ | ⟨m, he, hget⟩
    · rw [resumeBulkExport_missNone input w dir [] hval hget] at h
      exact resumePipeline_first_network input w dir _ _ _
        (initGet_no_network _ _ (Or.inl rfl)) x h
    · rw [resumeBulkExport_missNone input w dir [Event.cacheGetMiss] hval hget] at h
      exact resumePipeline_first_network input w dir _ _ _
        (initGet_no_network _ _ (Or.inr (Or.inl rfl))) x h
    · by_cases htr : jsTruthyJson v = true
      · rw [resumeBulkExport_hit input w dir v [Event.cacheGetHit] hval hget htr] at h
        have : ((if cacheEnabled input.cache then [Event.cacheInit] else [])
            ++ [Event.cacheGetHit]).filter Event.isNetwork = [] := by
          rw [List.filter_eq_nil_iff]
          intro a ha
          simp [initGet_no_network _ _ (Or.inr (Or.inr rfl)) a ha]
        rw [this] at h
        simp at h
      · rw [resumeBulkExport_missFalsy input w dir v [Event.cacheGetHit] hval hget
          (by simpa using htr)] at h
        exact resumePipeline_first_network input w dir _ _ _
          (initGet_no_network _ _ (Or.inr (Or.inr rfl))) x h
    · rw [resumeBulkExport_getError input w dir m [Event.cacheGetHit] hval hget] at h
      have : ((if cacheEnabled input.cache then [Event.cacheInit] else [])
          ++ [Event.cacheGetHit]).filter Event.isNetwork = [] := by
        rw [List.filter_eq_nil_iff]
        intro a ha
        simp [initGet_no_network _ _ (Or.inr (Or.inr rfl)) a ha]
      rw [this] at h
      simp at h

theorem missPipeline_finished_none (input : BaseInput) (w : World) (dir : CacheDir)
    (e : Bool) (k : String) (pre : List Event) (opId : String)
    (hsub : startBulkQuery w.submitResponse = .ok opId)
    (hpoll : (waitForQuery input.interval w.statusScript).1 = .finished none) :
    runMissPipeline input w dir e k pre
      = ⟨.ok (.arr []), dir,
         pre ++ [.format, .submit] ++ (waitForQuery input.interval w.statusScript).2⟩ := by
  rw [runMissPipeline_submitOk input w dir e k pre opId hsub, hpoll, finishExport_noUrl]

theorem resumePipeline_finished_none (input : ResumeInput) (w : World) (dir : CacheDir)
    (e : Bool) (k : String) (pre : List Event)
    (hpoll : (waitForQuery input.interval w.statusScript).1 = .finished none) :
    resumeMissPipeline input w dir e k pre
      = ⟨.ok (.arr []), dir, pre ++ (waitForQuery input.interval w.statusScript).2⟩ := by
  rw [resumeMissPipeline_eq, hpoll, finishExport_noUrl]

theorem classifyTick_eq_spec (r : StatusResponse) : classifyTick r = specClassify r := by
  obtain ⟨errs, bulk⟩ := r
  cases errs with
  | cons x t => simp [classifyTick, specClassify]
  | nil =>
    cases bulk with
    | none => simp [classifyTick, specClassify]
    | some b =>
      by_cases hty : b.typename = "BulkOperation"
      · by_cases hec : strTruthy b.errorCode = true
        · simp [classifyTick, specClassify, hty, hec]
        · by_cases hst : b.status = .completed
          · by_cases hc0 : b.objectCount = 0 <;>
              simp [classifyTick, specClassify, hty, hec, hst, hc0]
          · simp [classifyTick, specClassify, hty, hec, hst]
      · simp [classifyTick, specClassify, hty]

theorem jsonParse_blank : jsonParse "" = none := rfl

theorem parseLines_ok (lines : List String)
    (h : ∀ l ∈ lines, l = "" ∨ (jsonParse l).isSome = true) :
    parseLines lines = .ok (lines.filterMap jsonParse) := by
  induction lines with
  | nil => rfl
  | cons l rest ih =>
    rcases h l (by simp) with rfl | hsome
    · rw [parseLines, if_pos rfl, ih fun x hx => h x (by simp [hx])]
      simp [jsonParse_blank]
    · by_cases hblank : l = ""
      · subst hblank
        rw [parseLines, if_pos rfl, ih fun x hx => h x (by simp [hx])]
        simp [jsonParse_blank]
      · obtain ⟨v, hv⟩ := Option.isSome_iff_exists.mp hsome
        rw [parseLines, if_neg hblank, hv, ih fun x hx => h x (by simp [hx])]
        simp [hv]

theorem parseLines_err (lines : List String)
    (h : ∃ l ∈ lines, l ≠ "" ∧ jsonParse l = none) :
    ∃ e, parseLines lines = .error e := by
  induction lines with
  | nil => simp at h
  | cons l rest ih =>
    obtain ⟨x, hx, hxne, hxparse⟩ := h
    by_cases hblank : l = ""
    · subst hblank
      rw [parseLines, if_pos rfl]
      refine ih ⟨x, ?_, hxne, hxparse⟩
      rcases List.mem_cons.mp hx with rfl | hx
      · exact absurd rfl hxne
      · exact hx
    · rw [parseLines, if_neg hblank]
      cases hl : jsonParse l with
      | none => exact ⟨_, rfl⟩
      | some v =>
        have hxr : x ∈ rest := by
          rcases List.mem_cons.mp hx with rfl | hx
          · rw [hl] at hxparse
            simp at hxparse
          · exact hx
        obtain ⟨e, he⟩ := ih ⟨x, hxr, hxne, hxparse⟩
        rw [he]
        exact ⟨e, rfl⟩

theorem downloadData_fault (lines : List String) (m : String) :
    ∃ e, downloadData lines (some m) = .error e := by
  rw [downloadData]
  cases hp : parseLines lines with
  | error e2 => exact ⟨e2, rfl⟩
  | ok vs => exact ⟨m, rfl⟩

theorem missPipeline_disabled (input : BaseInput) (w : World) (dir : CacheDir)
    (k : String) (pre : List Event) (hpre : Event.cachePut ∉ pre) :
    (runMissPipeline input w dir false k pre).cacheDir = dir
    ∧ ∀ ev ∈ (runMissPipeline input w dir false k pre).events,
        ev ∈ pre ∨ ev.isFsAccess = false := by
  constructor
  · cases hsub : startBulkQuery w.submitResponse with
    | error msg => rw [runMissPipeline_submitError input w dir false k pre msg hsub]
    | ok opId =>
      rw [runMissPipeline_submitOk input w dir false k pre opId hsub]
      rcases hpo : (waitForQuery input.interval w.statusScript).1 with _ | f | u
      · rw [finishExport_pending]
      · rw [finishExport_fatal]
      · cases u with
        | none => rw [finishExport_noUrl]
        | some url =>
          by_cases hurl : url = ""
          · subst hurl
            rw [finishExport_emptyUrl]
          · cases hdl : downloadData w.downloadLines w.downloadFault with
            | error m => rw [finishExport_dlError false k w dir url _ m hurl hdl]
            | ok nodes =>
              rw [finishExport_dlOk false k w dir url _ nodes hurl hdl]
              simp [cachePut]
  · intro ev hev
    obtain ⟨tail, ht, hall⟩ := runMissPipeline_tail input w dir false k pre
    rw [ht] at hev
    rcases List.mem_append.mp hev with hev | hev
    · exact Or.inl hev
    · rcases hall ev hev with rfl | rfl | rfl | ⟨m, rfl⟩ | ⟨u, rfl⟩ | rfl
      · exact Or.inr rfl
      · exact Or.inr rfl
      · exact Or.inr rfl
      · exact Or.inr rfl
      · exact Or.inr rfl
      · exfalso
        have hput : Event.cachePut ∈ (runMissPipeline input w dir false k pre).events := by
          rw [ht]
          exact List.mem_append.mpr (Or.inr hev)
        obtain ⟨hfalse, _⟩ := missPipeline_put input w dir false k pre hpre hput
        simp at hfalse

theorem run_disabled (input : BaseInput) (w : World) (dir : CacheDir)
    (hc : input.cache = some (.inl false)) :
    (runBulkExport input w dir).cacheDir = dir
    ∧ ∀ e ∈ (runBulkExport input w dir).events, e.isFsAccess = false := by
  have he : cacheEnabled input.cache = false := by rw [hc]; rfl
  cases hval : validateRun input with
  | some msg =>
    rw [runBulkExport_invalid input w dir msg hval]
    exact ⟨rfl, by simp⟩
  | none =>
    have hget : cacheGet (cacheEnabled input.cache) dir (createHash input)
        = (.ok none, []) := by
      rw [he]
      simp [cacheGet]
    rw [runBulkExport_missNone input w dir [] hval hget, he]
    simp only [if_false, List.nil_append, List.append_nil, Bool.false_eq_true]
    obtain ⟨hdir, hev⟩ := missPipeline_disabled input w dir (createHash input) [] (by simp)
    refine ⟨hdir, fun e hee => ?_⟩
    rcases hev e hee with h | h
    · simp at h
    · exact h

theorem runSequence_disabled (calls : List (BaseInput × World)) (dir : CacheDir)
    (h : ∀ c ∈ calls, c.1.cache = some (.inl false)) :
    (runSequence calls dir).1 = dir
    ∧ ∀ e ∈ (runSequence calls dir).2, e.isFsAccess = false := by
  induction calls generalizing dir with
  | nil => exact ⟨rfl, by simp [runSequence]⟩
  | cons c rest ih =>
    obtain ⟨i, w⟩ := c
    obtain ⟨hdir, hev⟩ := run_disabled i w dir (h (i, w) (by simp))
    obtain ⟨hdir2, hev2⟩ := ih ((runBulkExport i w dir).cacheDir)
      (fun x hx => h x (by simp [hx]))
    constructor
    · rw [runSequence]
      simp only []
      rw [hdir2, hdir]
    · intro e hee
      rw [runSequence] at hee
      simp only [List.mem_append] at hee
      rcases hee with hee | hee
      · exact hev e hee
      · exact hev2 e hee

/-! ## The claims -/

/-- C1: a poll response with status Completed and object count zero is
classified as the empty result, a terminal and non-fatal outcome; the run
entry point then returns an empty sequence, leaves the cache directory
untouched and writes no cache entry, so running again with identical input
produces the identical full pipeline (including the submission call). -/
theorem claim_C1_emptyResult_run (input : BaseInput) (w : World) (dir : CacheDir)
    (pre : List StatusResponse) (r : StatusResponse) (b : BulkNode) (opId : String)
    (hscript : w.statusScript = pre ++ [r])
    (hpre : ∀ x ∈ pre, classifyTick x = .continueOp)
    (herr : r.errors = []) (hb : r.bulk = some b)
    (hty : b.typename = "BulkOperation") (hec : strTruthy b.errorCode = false)
    (hst : b.status = .completed) (hcount : b.objectCount = 0)
    (hval : validateRun input = none)
    (hmiss : dir.lookup (createHash input) = none)
    (hsub : startBulkQuery w.submitResponse = .ok opId) :
    classifyTick r = .emptyResult
    ∧ (runBulkExport input w dir).outcome = .ok (.arr [])
    ∧ (runBulkExport input w dir).cacheDir = dir
    ∧ Event.cachePut ∉ (runBulkExport input w dir).events
    ∧ runBulkExport input w ((runBulkExport input w dir).cacheDir)
        = runBulkExport input w dir
    ∧ Event.submit ∈ (runBulkExport input w dir).events := by
  have hcl : classifyTick r = .emptyResult := by
    simp [classifyTick, herr, hb, hty, hec, hst, hcount]
  have hpoll : (waitForQuery input.interval w.statusScript).1 = .finished none := by
    simp only [waitForQuery, hscript]
    rw [pollLoop_continue_run _ pre [r] hpre, pollLoop_empty_head _ r [] hcl]
  have hget : cacheGet (cacheEnabled input.cache) dir (createHash input)
      = (.ok none, if cacheEnabled input.cache then [Event.cacheGetMiss] else []) := by
    cases hce : cacheEnabled input.cache <;> simp [cacheGet, hmiss]
  have hrun := runBulkExport_missNone input w dir _ hval hget
  have hpipe := missPipeline_finished_none input w dir (cacheEnabled input.cache)
      (createHash input)
      ((if cacheEnabled input.cache then [Event.cacheInit] else [])
        ++ if cacheEnabled input.cache then [Event.cacheGetMiss] else [])
      opId hsub hpoll
  have hfull := hrun.trans hpipe
  refine ⟨hcl, ?_, ?_, ?_, ?_, ?_⟩
  · rw [hfull]
  · rw [hfull]
  · rw [hfull]
    intro hmem
    rcases List.mem_append.mp hmem with hmem | hmem
    · rcases List.mem_append.mp hmem with hmem | hmem
      · refine initGet_no_put _ _ ?_ hmem
        cases cacheEnabled input.cache <;> simp
      · simp at hmem
    · simp only [waitForQuery] at hmem
      rcases pollLoop_events _ _ _ hmem with h | h <;> simp at h
  · rw [hfull]
    exact hfull
  · rw [hfull]
    refine List.mem_append.mpr (Or.inl (List.mem_append.mpr (Or.inr ?_)))
    simp

/-- C1 witness: the concrete zero-object world. -/
theorem claim_C1_witness :
    (runBulkExport witnessInput witnessWorldEmpty []).outcome = .ok (.arr [])
    ∧ Event.cachePut ∉ (runBulkExport witnessInput witnessWorldEmpty []).events :=
  have h := claim_C1_emptyResult_run witnessInput witnessWorldEmpty [] []
    ⟨[], some witnessBulkEmpty⟩ witnessBulkEmpty "gid-1"
    rfl (by simp) rfl rfl rfl rfl rfl rfl rfl rfl rfl
  ⟨h.2.1, h.2.2.2.1⟩

/-- C2: for every run and resume, cache lookups happen before any network
call; a truthy cache hit short-circuits with zero network calls, in the run
entry point and in the resume entry point alike; a cache write implies the
poll ended successfully with a download URL, the stream decoded, and the run
returned exactly the downloaded records; and no cache write ever follows an
empty poll result or an error outcome. -/
theorem claim_C2_cache_discipline :
    (∀ (input : BaseInput) (w : World) (dir : CacheDir),
      lookupsPrecedeNetwork (runBulkExport input w dir).events = true)
    ∧ (∀ (input : ResumeInput) (w : World) (dir : CacheDir),
      lookupsPrecedeNetwork (resumeBulkExport input w dir).events = true)
    ∧ (∀ (input : BaseInput) (w : World) (dir : CacheDir) (v : Json),
      validateRun input = none →
      cacheGet (cacheEnabled input.cache) dir (createHash input)
        = (.ok (some v), [Event.cacheGetHit]) →
      jsTruthyJson v = true →
      (runBulkExport input w dir).outcome = .ok v
        ∧ ∀ e ∈ (runBulkExport input w dir).events, e.isNetwork = false)
    ∧ (∀ (input : ResumeInput) (w : World) (dir : CacheDir) (v : Json),
      validateResume input = none →
      cacheGet (cacheEnabled input.cache) dir (createHash input.toBaseInput)
        = (.ok (some v), [Event.cacheGetHit]) →
      jsTruthyJson v = true →
      (resumeBulkExport input w dir).outcome = .ok v
        ∧ ∀ e ∈ (resumeBulkExport input w dir).events, e.isNetwork = false)
    ∧ (∀ (input : BaseInput) (w : World) (dir : CacheDir),
      Event.cachePut ∈ (runBulkExport input w dir).events →
      ∃ url nodes,
        (waitForQuery input.interval w.statusScript).1 = .finished (some url)
        ∧ downloadData w.downloadLines w.downloadFault = .ok nodes
        ∧ (runBulkExport input w dir).outcome = .ok (.arr nodes)
        ∧ Event.download url ∈ (runBulkExport input w dir).events)
    ∧ (∀ (input : BaseInput) (w : World) (dir : CacheDir),
      ((waitForQuery input.interval w.statusScript).1 = .finished none
        ∨ (∃ e, (runBulkExport input w dir).outcome = .error e)) →
      Event.cachePut ∉ (runBulkExport input w dir).events)
    ∧ (∀ (input : ResumeInput) (w : World) (dir : CacheDir),
      ((waitForQuery input.interval w.statusScript).1 = .finished none
        ∨ (∃ e, (resumeBulkExport input w dir).outcome = .error e)) →
      Event.cachePut ∉ (resumeBulkExport input w dir).events) := by
  refine ⟨run_lookups_precede, resume_lookups_precede, ?_, ?_, ?_, ?_, ?_⟩
  · intro input w dir v hval hget htr
    rw [runBulkExport_hit input w dir v [Event.cacheGetHit] hval hget htr]
    exact ⟨rfl, initGet_no_network _ _ (Or.inr (Or.inr rfl))⟩
  · intro input w dir v hval hget htr
    rw [resumeBulkExport_hit input w dir v [Event.cacheGetHit] hval hget htr]
    exact ⟨rfl, initGet_no_network _ _ (Or.inr (Or.inr rfl))⟩
  · intro input w dir hput
    obtain ⟨hen, hval, url, nodes, hpo, hurl, hdl, hout, hdlev, hdir⟩ :=
      run_put_inversion input w dir hput
    exact ⟨url, nodes, hpo, hdl, hout, hdlev⟩
  · intro input w dir hcase hput
    obtain ⟨hen, hval, url, nodes, hpo, hurl, hdl, hout, hdlev, hdir⟩ :=
      run_put_inversion input w dir hput
    rcases hcase with hnone | ⟨e, herr⟩
    · rw [hpo] at hnone
      simp at hnone
    · rw [hout] at herr
      simp at herr
  · intro input w dir hcase hput
    obtain ⟨hen, hval, url, nodes, hpo, hurl, hdl, hout, hdlev, hdir⟩ :=
      resume_put_inversion input w dir hput
    rcases hcase with hnone | ⟨e, herr⟩
    · rw [hpo] at hnone
      simp at hnone
    · rw [hout] at herr
      simp at herr

/-- C2 witness: after an empty poll result, no cache write happened. -/
theorem claim_C2_witness :
    Event.cachePut ∉ (runBulkExport witnessInput witnessWorldEmpty []).events :=
  claim_C2_cache_discipline.2.2.2.2.2.1 witnessInput witnessWorldEmpty []
    (Or.inl rfl)

/-- C3: the cache key digest is a function of the query, the structurally
resolved variables, the store name and the API version only: two requests
agreeing on those — with the variables maps equal as finite maps, in any key
order — receive equal digests even if their access tokens, intervals and
cache options differ. -/
theorem claim_C3_cache_key_stable (q : QueryInput) (name : String)
    (api : Option String) (tok1 tok2 : String) (ivl1 ivl2 : Option Nat)
    (c1 c2 : Option (Bool ⊕ String)) (v1 v2 : VarMap)
    (hperm : v1.Perm v2) (hnd : (v1.map Prod.fst).Nodup) :
    createHash ⟨⟨name, tok1, api⟩, q, some v1, ivl1, c1⟩
      = createHash ⟨⟨name, tok2, api⟩, q, some v2, ivl2, c2⟩ := by
  have hv : normJson (.obj v1) = normJson (.obj v2) := normJson_vars_perm v1 v2 hperm hnd
  simp only [normJson] at hv
  simp only [createHash, varsToJson]
  congr 1
  simp only [normJson, normFields]
  rw [hv]

/-- C3 witness: the same variables in swapped key order, with different
tokens, intervals and cache options, hash identically. -/
theorem claim_C3_witness :
    createHash ⟨⟨"shop1", "t1", none⟩, .str "q", some [("b", .num 1), ("a", .num 2)],
        none, none⟩
      = createHash ⟨⟨"shop1", "t2", none⟩, .str "q", some [("a", .num 2), ("b", .num 1)],
        some 5, some (.inl false)⟩ :=
  claim_C3_cache_key_stable (QueryInput.str "q") "shop1" none "t1" "t2" none (some 5) none
    (some (Sum.inl false)) [("b", Json.num 1), ("a", Json.num 2)]
    [("a", Json.num 2), ("b", Json.num 1)]
    (List.Perm.swap ("a", Json.num 2) ("b", Json.num 1) []) (by decide)

/-- C4: each poll tick is classified by exactly the rules of the spec in the
order the spec gives them (the source classifier and the spec-ordered classifier agree on
every response); a clean response in any of the five non-terminal states
continues; a continue tick is followed by a suspension of the configured
interval before the next tick; and an absent interval defaults to 20000 ms. -/
theorem claim_C4_classifier_rules :
    (∀ r : StatusResponse, classifyTick r = specClassify r)
    ∧ (∀ b : BulkNode, b.typename = "BulkOperation" → strTruthy b.errorCode = false →
        b.status ∈ [BulkOperationStatus.created, .running, .canceling, .canceled, .expired] →
        classifyTick ⟨[], some b⟩ = .continueOp)
    ∧ (∀ (i : Nat) (r : StatusResponse) (script : List StatusResponse),
        classifyTick r = .continueOp →
        pollLoop i (r :: script)
          = ((pollLoop i script).1, .poll :: .wait i :: (pollLoop i script).2))
    ∧ (∀ script : List StatusResponse, waitForQuery none script = pollLoop 20000 script) := by
  refine ⟨classifyTick_eq_spec, ?_, pollLoop_continue_head, fun script => rfl⟩
  intro b hty hec hst
  simp only [List.mem_cons, List.not_mem_nil, or_false] at hst
  rcases hst with h | h | h | h | h <;>
    simp [classifyTick, hty, hec, h]

/-- C4 witness: a clean Running response continues. -/
theorem claim_C4_witness :
    classifyTick ⟨[], some witnessBulkRunning⟩ = .continueOp :=
  claim_C4_classifier_rules.2.1 witnessBulkRunning rfl rfl (by simp [witnessBulkRunning])

/-- C5 as stated is false on the code: in the document
`query Q ($a: ID) \x7b f(ids: [$a]) \x7d` with the variables map assigning
"a", the reference to `$a` sits inside a list value, where the visit key is
the numeric list index rather than the string `value`, so the early
return leaves it unreplaced: one reference to a mapped variable survives the
transform. -/
theorem claim_C5_counterexample :
    (List.lookup "a" [("a", Json.str "x")]).isSome = true
    ∧ countRefsDoc "a" (replaceVariablesDoc [("a", Json.str "x")] listVarDoc) = (0, 1) :=
  ⟨rfl, rfl⟩

/-- C5 amended: with no variables map the formatter prints the document
unchanged; with a map, every variable definition node is removed; every
reference to a mapped variable sitting directly under a `value` key (argument
values and input object field values) is replaced, while reference counts at
other positions (list elements) are never changed; and references to unmapped
variables are left entirely intact (dangling once their declarations are
stripped).  The transform is a pure function of the tree. -/
theorem claim_C5_amended (doc : DocumentNode) (vars : VarMap) (n : String) (j : Json) :
    replaceQueryVariables doc none = printDoc doc
    ∧ (∀ op ∈ (replaceVariablesDoc vars doc).definitions, op.variableDefinitions = [])
    ∧ (vars.lookup n = some j → (countRefsDoc n (replaceVariablesDoc vars doc)).1 = 0)
    ∧ ((countRefsDoc n (replaceVariablesDoc vars doc)).2 = (countRefsDoc n doc).2)
    ∧ (vars.lookup n = none →
        countRefsDoc n (replaceVariablesDoc vars doc) = countRefsDoc n doc) := by
  obtain ⟨ha, hb, hc⟩ := replaceVariablesDoc_counts n vars doc
  refine ⟨rfl, ?_, ?_, ha, hc⟩
  · intro op hop
    simp only [replaceVariablesDoc, List.mem_map] at hop
    obtain ⟨d0, _, rfl⟩ := hop
    rfl
  · intro hsome
    exact hb (by simp [hsome])

/-- C5 amended witness: in the counterexample document all value-key
references to the mapped variable are gone while its list-element reference
count is preserved. -/
theorem claim_C5_amended_witness :
    (countRefsDoc "a" (replaceVariablesDoc [("a", Json.str "x")] listVarDoc)).1 = 0
    ∧ (countRefsDoc "a" (replaceVariablesDoc [("a", Json.str "x")] listVarDoc)).2
        = (countRefsDoc "a" listVarDoc).2 :=
  ⟨(claim_C5_amended listVarDoc [("a", Json.str "x")] "a" (Json.str "x")).2.2.1 rfl,
   (claim_C5_amended listVarDoc [("a", Json.str "x")] "a" (Json.str "x")).2.2.2.1⟩

/-- C6: the download step decodes the received lines in arrival order,
skipping blank lines and parsing every other line independently as one JSON
record; the two-record example decodes to exactly those two records in
order; any parse failure of a non-blank line and any stream fault abort the
whole operation with an error, so no partial list is ever returned. -/
theorem claim_C6_download_stream (lines : List String) (fault : Option String) :
    ((∀ l ∈ lines, l = "" ∨ (jsonParse l).isSome = true) →
      downloadData lines none = .ok (lines.filterMap jsonParse))
    ∧ downloadData ["\x7b\"id\":1\x7d", "\x7b\"id\":2\x7d", ""] none
        = .ok [.obj [("id", .num 1)], .obj [("id", .num 2)]]
    ∧ ((∃ l ∈ lines, l ≠ "" ∧ jsonParse l = none) →
      ∃ e, downloadData lines fault = .error e)
    ∧ (∀ m, fault = some m → ∃ e, downloadData lines fault = .error e) := by
  refine ⟨?_, rfl, ?_, ?_⟩
  · intro h
    rw [downloadData, parseLines_ok lines h]
  · intro h
    obtain ⟨e, he⟩ := parseLines_err lines h
    rw [downloadData, he]
    exact ⟨e, rfl⟩
  · intro m hm
    subst hm
    exact downloadData_fault lines m

/-- C6 witness: the example stream with an interior blank line decodes to the
two records in order. -/
theorem claim_C6_witness :
    downloadData ["\x7b\"id\":1\x7d", "", "\x7b\"id\":2\x7d"] none
      = .ok (["\x7b\"id\":1\x7d", "", "\x7b\"id\":2\x7d"].filterMap jsonParse) :=
  (claim_C6_download_stream ["\x7b\"id\":1\x7d", "", "\x7b\"id\":2\x7d"] none).1
    (by decide)

/-- C7: the resume entry point never issues the job-submission mutation and
never invokes the query formatter, and whenever its trace contains a network
call at all, the first one is a status poll (on a cache miss it enters
directly at the polling step). -/
theorem claim_C7_resume_skips_submission (input : ResumeInput) (w : World) (dir : CacheDir) :
    Event.submit ∉ (resumeBulkExport input w dir).events
    ∧ Event.format ∉ (resumeBulkExport input w dir).events
    ∧ (∀ x, (((resumeBulkExport input w dir).events.filter Event.isNetwork).head?) = some x →
        x = Event.poll) :=
  ⟨(resume_no_submit_format input w dir).1,
   (resume_no_submit_format input w dir).2,
   fun x h => resume_first_network input w dir x h⟩

/-- C7 witness: on the concrete resume fixture the first network call is a
poll. -/
theorem claim_C7_witness :
    Event.submit ∉ (resumeBulkExport witnessResume witnessWorldEmpty []).events
    ∧ Event.poll = Event.poll :=
  ⟨(claim_C7_resume_skips_submission witnessResume witnessWorldEmpty []).1,
   (claim_C7_resume_skips_submission witnessResume witnessWorldEmpty []).2.2
     Event.poll rfl⟩

/-- C8: when a first run wrote the cache, a second run with identical input,
against any remote world, returns the same outcome while performing zero
network calls: the entry written as serialized JSON parses back to exactly
the record sequence of the first run. -/
theorem claim_C8_cache_roundtrip (input : BaseInput) (w w2 : World) (dir : CacheDir)
    (hput : Event.cachePut ∈ (runBulkExport input w dir).events) :
    (runBulkExport input w2 ((runBulkExport input w dir).cacheDir)).outcome
        = (runBulkExport input w dir).outcome
    ∧ ∀ e ∈ (runBulkExport input w2 ((runBulkExport input w dir).cacheDir)).events,
        e.isNetwork = false := by
  obtain ⟨hen, hval, url, nodes, hpo, hurl, hdl, hout, hdlev, hdir⟩ :=
    run_put_inversion input w dir hput
  rw [hdir, hout]
  have hlook : ((createHash input, jsonStringify (.arr nodes)) :: dir).lookup (createHash input)
      = some (jsonStringify (.arr nodes)) := by
    simp [List.lookup]
  have hget : cacheGet (cacheEnabled input.cache)
      ((createHash input, jsonStringify (.arr nodes)) :: dir) (createHash input)
      = (.ok (some (.arr nodes)), [Event.cacheGetHit]) := by
    rw [hen]
    simp [cacheGet, hlook, jsonParse_stringify]
  rw [runBulkExport_hit input w2 _ (.arr nodes) [Event.cacheGetHit] hval hget rfl]
  exact ⟨rfl, initGet_no_network _ _ (Or.inr (Or.inr rfl))⟩

/-- C8 witness: the concrete successful run, rerun on its own cache
directory, returns the same outcome. -/
theorem claim_C8_witness :
    (runBulkExport witnessInput witnessWorld
        ((runBulkExport witnessInput witnessWorld []).cacheDir)).outcome
      = (runBulkExport witnessInput witnessWorld []).outcome :=
  (claim_C8_cache_roundtrip witnessInput witnessWorld witnessWorld [] (by decide)).1

/-- C9: a disabled cache reports every lookup absent and makes every write a
no-op; the cache option is enabled when absent and when given a custom
directory string; with the cache disabled a run leaves the directory
untouched and its trace contains no filesystem access, and neither does any
sequence of such runs. -/
theorem claim_C9_disabled_cache :
    (∀ (dir : CacheDir) (key : String), cacheGet false dir key = (.ok none, []))
    ∧ (∀ (key : String) (v : Json) (dir : CacheDir), cachePut false key v dir = (dir, []))
    ∧ cacheEnabled none = true
    ∧ (∀ s, cacheEnabled (some (.inr s)) = true)
    ∧ (∀ (input : BaseInput) (w : World) (dir : CacheDir),
        input.cache = some (.inl false) →
        (runBulkExport input w dir).cacheDir = dir
          ∧ ∀ e ∈ (runBulkExport input w dir).events, e.isFsAccess = false)
    ∧ (∀ (calls : List (BaseInput × World)) (dir : CacheDir),
        (∀ c ∈ calls, c.1.cache = some (.inl false)) →
        ∀ e ∈ (runSequence calls dir).2, e.isFsAccess = false) := by
  refine ⟨?_, ?_, rfl, fun s => rfl, ?_, ?_⟩
  · intro dir key
    simp [cacheGet]
  · intro key v dir
    simp [cachePut]
  · intro input w dir hc
    exact run_disabled input w dir hc
  · intro calls dir h
    exact (runSequence_disabled calls dir h).2

/-- C9 witness: the disabled-cache fixture run performs no filesystem
access. -/
theorem claim_C9_witness :
    ∀ e ∈ (runBulkExport witnessInputNoCache witnessWorld []).events,
      e.isFsAccess = false :=
  (claim_C9_disabled_cache.2.2.2.2.1 witnessInputNoCache witnessWorld [] rfl).2

/-- C10: a poll response with status Completed, a nonzero object count and a
null download URL ends the poll without a download locator, and both entry
points return an empty sequence with no streaming fetch and no cache write —
observably the same as the empty result. -/
theorem claim_C10_null_url (input : BaseInput) (rinput : ResumeInput) (w : World)
    (dir : CacheDir) (pre : List StatusResponse) (r : StatusResponse) (b : BulkNode)
    (opId : String)
    (hscript : w.statusScript = pre ++ [r])
    (hpre : ∀ x ∈ pre, classifyTick x = .continueOp)
    (herr : r.errors = []) (hb : r.bulk = some b)
    (hty : b.typename = "BulkOperation") (hec : strTruthy b.errorCode = false)
    (hst : b.status = .completed) (hcount : b.objectCount ≠ 0) (hurl : b.url = none)
    (hval : validateRun input = none) (hrval : validateResume rinput = none)
    (hmiss : dir.lookup (createHash input) = none)
    (hrmiss : dir.lookup (createHash rinput.toBaseInput) = none)
    (hsub : startBulkQuery w.submitResponse = .ok opId) :
    classifyTick r = .success none
    ∧ (runBulkExport input w dir).outcome = .ok (.arr [])
    ∧ (runBulkExport input w dir).cacheDir = dir
    ∧ (∀ u, Event.download u ∉ (runBulkExport input w dir).events)
    ∧ Event.cachePut ∉ (runBulkExport input w dir).events
    ∧ (resumeBulkExport rinput w dir).outcome = .ok (.arr [])
    ∧ (resumeBulkExport rinput w dir).cacheDir = dir
    ∧ (∀ u, Event.download u ∉ (resumeBulkExport rinput w dir).events)
    ∧ Event.cachePut ∉ (resumeBulkExport rinput w dir).events := by
  have hcl : classifyTick r = .success none := by
    simp [classifyTick, herr, hb, hty, hec, hst, hcount, hurl]
  have hpoll : ∀ ivl : Option Nat, (waitForQuery ivl w.statusScript).1 = .finished none := by
    intro ivl
    simp only [waitForQuery, hscript]
    rw [pollLoop_continue_run _ pre [r] hpre, pollLoop_success_head _ r [] none hcl]
  have hget : cacheGet (cacheEnabled input.cache) dir (createHash input)
      = (.ok none, if cacheEnabled input.cache then [Event.cacheGetMiss] else []) := by
    cases hce : cacheEnabled input.cache <;> simp [cacheGet, hmiss]
  have hrget : cacheGet (cacheEnabled rinput.cache) dir (createHash rinput.toBaseInput)
      = (.ok none, if cacheEnabled rinput.cache then [Event.cacheGetMiss] else []) := by
    cases hce : cacheEnabled rinput.cache <;> simp [cacheGet, hrmiss]
  have hrun := (runBulkExport_missNone input w dir _ hval hget).trans
    (missPipeline_finished_none input w dir (cacheEnabled input.cache)
      (createHash input)
      ((if cacheEnabled input.cache then [Event.cacheInit] else [])
        ++ if cacheEnabled input.cache then [Event.cacheGetMiss] else [])
      opId hsub (hpoll input.interval))
  have hres := (resumeBulkExport_missNone rinput w dir _ hrval hrget).trans
    (resumePipeline_finished_none rinput w dir (cacheEnabled rinput.cache)
      (createHash rinput.toBaseInput)
      ((if cacheEnabled rinput.cache then [Event.cacheInit] else [])
        ++ if cacheEnabled rinput.cache then [Event.cacheGetMiss] else [])
      (hpoll rinput.interval))
  refine ⟨hcl, ?_, ?_, ?_, ?_, ?_, ?_, ?_, ?_⟩
  · rw [hrun]
  · rw [hrun]
  · intro u hmem
    rw [hrun] at hmem
    rcases List.mem_append.mp hmem with hmem | hmem
    · rcases List.mem_append.mp hmem with hmem | hmem
      · rcases initGet_mem _ _ (by cases cacheEnabled input.cache <;> simp) _ hmem
          with h | h | h <;> simp at h
      · simp at hmem
    · simp only [waitForQuery] at hmem
      rcases pollLoop_events _ _ _ hmem with h | h <;> simp at h
  · rw [hrun]
    intro hmem
    rcases List.mem_append.mp hmem with hmem | hmem
    · rcases List.mem_append.mp hmem with hmem | hmem
      · refine initGet_no_put _ _ ?_ hmem
        cases cacheEnabled input.cache <;> simp
      · simp at hmem
    · simp only [waitForQuery] at hmem
      rcases pollLoop_events _ _ _ hmem with h | h <;> simp at h
  · rw [hres]
  · rw [hres]
  · intro u hmem
    rw [hres] at hmem
    rcases List.mem_append.mp hmem with hmem | hmem
    · rcases initGet_mem _ _ (by cases cacheEnabled rinput.cache <;> simp) _ hmem
        with h | h | h <;> simp at h
    · simp only [waitForQuery] at hmem
      rcases pollLoop_events _ _ _ hmem with h | h <;> simp at h
  · rw [hres]
    intro hmem
    rcases List.mem_append.mp hmem with hmem | hmem
    · refine initGet_no_put _ _ ?_ hmem
      cases cacheEnabled rinput.cache <;> simp
    · simp only [waitForQuery] at hmem
      rcases pollLoop_events _ _ _ hmem with h | h <;> simp at h

/-- C10 witness: the concrete completed-with-null-URL world. -/
theorem claim_C10_witness :
    (runBulkExport witnessInput witnessWorldNoUrl []).outcome = .ok (.arr [])
    ∧ (resumeBulkExport witnessResume witnessWorldNoUrl []).outcome = .ok (.arr []) :=
  have h := claim_C10_null_url witnessInput witnessResume witnessWorldNoUrl [] []
    ⟨[], some witnessBulkNoUrl⟩ witnessBulkNoUrl "gid-1"
    rfl (by simp) rfl rfl rfl rfl rfl (by decide) rfl rfl rfl rfl rfl rfl
  ⟨h.2.1, h.2.2.2.2.2.1⟩

end BulkExport
